import Mathlib

/-!
# Verification development for `A2.c` (music manager) and `A1.c` (event manager)

Strings are lists of characters.  A text file is the sequence of strings that successive
`fgets` calls return on it (each one ends with its newline when the line had one).
The C type `float` of a rank is an ordered type `R`; the library conversion `atof` into it
is a parameter of the definitions that use it.
-/

/-! ## Definitions: library functions -/

namespace CLib

/-- Whitespace as `isspace` sees it in the C locale. -/
def isspace (c : Char) : Bool :=
  c = ' ' || c = '\t' || c = '\n' || c = '\x0b' || c = '\x0c' || c = '\r'

/-- Value of the leading run of decimal digits, continuing from `acc`. -/
def digitsVal : List Char → Nat → Nat
  | [], acc => acc
  | c :: cs, acc => if c.isDigit then digitsVal cs (acc * 10 + (c.toNat - 48)) else acc

/-- Library `atoi`: skips leading whitespace, reads an optional sign and the leading digits,
stops at the first other character; no digits give 0.  (Values that do not fit `int` are
undefined in C; the mathematical value is returned here.) -/
def atoi (s : List Char) : Int :=
  match s.dropWhile isspace with
  | '-' :: r => -(digitsVal r 0 : Int)
  | '+' :: r => (digitsVal r 0 : Int)
  | r => (digitsVal r 0 : Int)

end CLib

/-! ## Definitions: `A2.c` -/

namespace MusicManager

open CLib

/-- Record of `node_t`, as `createNode` fills it (`next` is the tail of the Lean list). -/
structure node_t (R : Type) where
  artist : List Char
  song : List Char
  year : Int
  sorting : R
deriving DecidableEq, Repr

/-- Fields of `Options` that `parseLine`, `extractDataFromCSV` and `print_next_nodes` read.
`sortBy` is the text after `--sortBy=` (the flag is present). -/
structure Options where
  sortBy : List Char
  display : Int
deriving DecidableEq, Repr

/-- The four locals `artist`, `song`, `year`, `sorting` of the loop body of
`extractDataFromCSV`, which `parseLine` writes through pointers.  The source declares them
without initialiser, so their contents before `parseLine` runs are whatever the stack holds;
an unset `char*` is modelled as an arbitrary string. -/
structure Locals (R : Type) where
  artist : List Char
  song : List Char
  year : Int
  sorting : R
deriving DecidableEq, Repr

/-- Tokens that `strtok(line, d)` followed by repeated `strtok(NULL, d)` returns, in order:
the maximal non-empty runs of characters other than `d`.  `cur` is the token being read. -/
def strtokAux (d : Char) : List Char → List Char → List (List Char)
  | [], cur => if cur = [] then [] else [cur]
  | c :: cs, cur =>
    if c = d then (if cur = [] then strtokAux d cs [] else cur :: strtokAux d cs [])
    else strtokAux d cs (cur ++ [c])

/-- All tokens of `s` for the single delimiter `d`. -/
def strtokAll (d : Char) (s : List Char) : List (List Char) := strtokAux d s []

/-- The `switch (field)` of `parseLine` for one token. -/
def parseField {R : Type} (atof : List Char → R) (options : Options) (field : Nat)
    (token : List Char) (v : Locals R) : Locals R :=
  match field with
  | 0 => { v with artist := token }
  | 1 => { v with song := token }
  | 4 => { v with year := atoi token }
  | 5 => if options.sortBy = "popularity".toList then { v with sorting := atof token } else v
  | 6 => if options.sortBy = "danceability".toList then { v with sorting := atof token } else v
  | 7 => if options.sortBy = "energy".toList then { v with sorting := atof token } else v
  | _ => v

/-- The `while (token != NULL)` loop of `parseLine`, over the remaining tokens. -/
def parseLoop {R : Type} (atof : List Char → R) (options : Options) :
    List (List Char) → Nat → Locals R → Locals R
  | [], _, v => v
  | token :: rest, field, v => parseLoop atof options rest (field + 1)
      (parseField atof options field token v)

/-- Function `parseLine`: `v` holds the pointed-to locals on entry, the result on return. -/
def parseLine {R : Type} (atof : List Char → R) (options : Options) (line : List Char)
    (v : Locals R) : Locals R :=
  parseLoop atof options (strtokAll ',' line) 0 v

/-- Function `createNode`. -/
def createNode {R : Type} (artist song : List Char) (year : Int) (sorting : R) : node_t R :=
  { artist := artist, song := song, year := year, sorting := sorting }

/-- Modelled from the spec: `add_inorder` of `list.c`, which is not among the sources.
It finds the first position whose rank is greater than or equal to the new record's rank and
inserts immediately before it; when the sequence is empty or all existing ranks are strictly
less than the new rank it inserts at the end. -/
def add_inorder {R : Type} [LinearOrder R] : List (node_t R) → node_t R → List (node_t R)
  | [], new_node => [new_node]
  | cur :: next, new_node =>
    if new_node.sorting ≤ cur.sorting then new_node :: cur :: next
    else cur :: add_inorder next new_node

/-- One pass of the inner `while (fgets ...)` loop of `extractDataFromCSV` per data line.
The state is the list head and the number of rows read so far; `stack k` is what the
uninitialised locals hold when row `k` is read. -/
def readRows {R : Type} [LinearOrder R] (atof : List Char → R) (options : Options)
    (stack : Nat → Locals R) :
    List (List Char) → List (node_t R) × Nat → List (node_t R) × Nat
  | [], st => st
  | line :: rest, st =>
    let v := parseLine atof options line (stack st.2)
    let new_node := createNode v.artist v.song v.year v.sorting
    readRows atof options stack rest (add_inorder st.1 new_node, st.2 + 1)

/-- The `for` loop of `extractDataFromCSV` over the files.  `none` is a file for which
`openFileForReading` returned `NULL` (`continue`); otherwise the first `fgets` result, the
header, is discarded and the rest are data lines. -/
def readFiles {R : Type} [LinearOrder R] (atof : List Char → R) (options : Options)
    (stack : Nat → Locals R) :
    List (Option (List (List Char))) → List (node_t R) × Nat → List (node_t R) × Nat
  | [], st => st
  | none :: files, st => readFiles atof options stack files st
  | some lines :: files, st =>
    readFiles atof options stack files (readRows atof options stack (lines.drop 1) st)

/-- Contents written to `output.csv`: the header line and, per data row, the record whose
fields are the arguments of the `fprintf` call. -/
structure OutputCsv (R : Type) where
  header : List Char
  rows : List (node_t R)
deriving DecidableEq, Repr

/-- The `while (current != NULL && count < display)` loop of `print_next_nodes`. -/
def printLoop {R : Type} (display : Int) : List (node_t R) → Int → List (node_t R)
  | [], _ => []
  | current :: next, count =>
    if count < display then current :: printLoop display next (count + 1) else []

/-- Function `print_next_nodes`.  `canOpen` says whether `fopen("output.csv", "w")`
succeeded; on failure nothing is written.  The second component is the list after the call. -/
def print_next_nodes {R : Type} (canOpen : Bool) (list : List (node_t R)) (display : Int)
    (options : Options) : Option (OutputCsv R) × List (node_t R) :=
  if canOpen then
    (some { header := "artist,song,year,".toList ++ options.sortBy ++ ['\n'],
            rows := printLoop display list 0 }, list)
  else (none, list)

/-- Function `extractDataFromCSV`: the list it leaves in `*list` and what it writes. -/
def extractDataFromCSV {R : Type} [LinearOrder R] (atof : List Char → R) (canOpen : Bool)
    (stack : Nat → Locals R) (options : Options) (files : List (Option (List (List Char))))
    (list : List (node_t R)) : List (node_t R) × Option (OutputCsv R) :=
  let built := (readFiles atof options stack files (list, 0)).1
  (built, (print_next_nodes canOpen built options.display options).1)

/-- Records created for the data lines `lines`, in reading order, the first being row `k`. -/
def rowRecords {R : Type} (atof : List Char → R) (options : Options)
    (stack : Nat → Locals R) : List (List Char) → Nat → List (node_t R)
  | [], _ => []
  | line :: rest, k =>
    (let v := parseLine atof options line (stack k)
     createNode v.artist v.song v.year v.sorting) :: rowRecords atof options stack rest (k + 1)

/-- Records created for all files that opened, in reading order. -/
def fileRecords {R : Type} (atof : List Char → R) (options : Options)
    (stack : Nat → Locals R) : List (Option (List (List Char))) → Nat → List (node_t R)
  | [], _ => []
  | none :: files, k => fileRecords atof options stack files k
  | some lines :: files, k =>
    rowRecords atof options stack (lines.drop 1) k ++
      fileRecords atof options stack files (k + (lines.drop 1).length)

/-- Comma-separated fields in the usual sense: the pieces of `s` between consecutive
occurrences of `d`, empty pieces included.  `cur` is the piece being read. -/
def fieldsAux (d : Char) : List Char → List Char → List (List Char)
  | [], cur => [cur]
  | c :: cs, cur => if c = d then cur :: fieldsAux d cs [] else fieldsAux d cs (cur ++ [c])

/-- The comma-separated fields of a line, numbered from 0. -/
def commaFields (line : List Char) : List (List Char) := fieldsAux ',' line []

/-- Text of a line from its comma-separated fields: the fields with one comma between
consecutive ones. -/
def joinFields : List (List Char) → List Char
  | [] => []
  | [f] => f
  | f :: g :: fs => f ++ ',' :: joinFields (g :: fs)

/-- The same line with every empty comma-separated field removed. -/
def dropEmptyFields (line : List Char) : List Char :=
  joinFields ((commaFields line).filter (fun f => decide (f ≠ [])))

/-- Decimal reading of a token for the examples: sign, integer digits, optional fraction
digits, as the pair (signed mantissa, number of fraction digits). -/
def decimalParts (s : List Char) : Int × Nat :=
  let body := s.dropWhile isspace
  let neg := body.head? = some '-'
  let unsigned := if body.head? = some '-' ∨ body.head? = some '+' then body.drop 1 else body
  let ip := unsigned.takeWhile Char.isDigit
  let afterInt := unsigned.dropWhile Char.isDigit
  let fp := if afterInt.head? = some '.' then (afterInt.drop 1).takeWhile Char.isDigit else []
  let mant : Int := (digitsVal (ip ++ fp) 0 : Int)
  (if neg then -mant else mant, fp.length)

/-- Library `atof` on plain decimal text (`-12.5`, `0.9`), with exact rational value. -/
def atofDecimal (s : List Char) : ℚ :=
  ((decimalParts s).1 : ℚ) / (10 : ℚ) ^ (decimalParts s).2

end MusicManager

/-! ## Definitions: `A1.c` -/

namespace EventManager

open CLib

/-- Arguments of one call `printFormattedDateTime(dtstart, dtend, summary, location)`. -/
structure Event where
  dtstart : List Char
  dtend : List Char
  summary : List Char
  location : List Char
deriving DecidableEq, Repr

/-- Locals of `processFile` that live across lines: the flag `eventStarted` and the four
buffers.  The buffers are declared without initialiser. -/
structure ScanState where
  eventStarted : Bool
  dtstart : List Char
  dtend : List Char
  summary : List Char
  location : List Char
deriving DecidableEq, Repr

/-- Outcome of a string conversion of `sscanf` whose target is a `char` array of `size`
bytes: the conversion fails and the array is not written; or the text is stored, which
needs its characters and the terminating NUL to fit; or the text is longer than that and
the call writes past the end of the array, which is undefined in C. -/
inductive Scanned where
  | noMatch : Scanned
  | stored (value : List Char) : Scanned
  | overflow : Scanned
deriving DecidableEq, Repr

/-- Conversion `%s` of `sscanf` into an array of `size` bytes: skips leading whitespace and
reads the following run of non-whitespace characters; no match when the input ends first. -/
def scanWord (size : Nat) (s : List Char) : Scanned :=
  let body := s.dropWhile isspace
  if body = [] then Scanned.noMatch
  else if (body.takeWhile (fun c => !isspace c)).length < size then
    Scanned.stored (body.takeWhile (fun c => !isspace c))
  else Scanned.overflow

/-- Conversion `%[^\n]` of `sscanf` into an array of `size` bytes: the run of characters up
to the newline; no match when the run is empty. -/
def scanToNewline (size : Nat) (s : List Char) : Scanned :=
  let run := s.takeWhile (fun c => c != '\n')
  if run = [] then Scanned.noMatch
  else if run.length < size then Scanned.stored run
  else Scanned.overflow

/-- Conversion `%Nd` of `sscanf` with field width `w`: skips whitespace, reads an optional
sign and digits, at most `w` characters in all; `none` when no digit is read.  Returns the
value and the unread input. -/
def scanInt (w : Nat) (s : List Char) : Option (Int × List Char) :=
  let body := s.dropWhile isspace
  let signed := w ≠ 0 ∧ (body.head? = some '-' ∨ body.head? = some '+')
  let unsignedPart := if signed then body.drop 1 else body
  let avail := if signed then w - 1 else w
  let ds := (unsignedPart.take avail).takeWhile Char.isDigit
  if ds = [] then none
  else
    let val : Int := (digitsVal ds 0 : Int)
    some (if body.head? = some '-' ∧ signed then -val else val, unsignedPart.drop ds.length)

/-- Output of `%0Nd` of `sprintf` with minimum width `w`: sign first, then zeros, then the
digits. -/
def printIntPadded (w : Nat) (n : Int) : List Char :=
  let ds := Nat.toDigits 10 n.natAbs
  if n < 0 then '-' :: (List.replicate (w - 1 - ds.length) '0' ++ ds)
  else List.replicate (w - ds.length) '0' ++ ds

/-- The three `int` locals `year`, `month`, `day` of `formatDateToInt`. -/
structure DateLocals where
  year : Int
  month : Int
  day : Int
deriving DecidableEq, Repr

/-- Call `sscanf(arg, "%4d/%2d/%2d", &year, &month, &day)`: assignments stop at the first
conversion or literal `/` that does not match; what was not assigned keeps its value. -/
def scanDate (arg : List Char) (v : DateLocals) : DateLocals :=
  match scanInt 4 arg with
  | none => v
  | some (y, r1) =>
    match r1 with
    | '/' :: r2 =>
      match scanInt 2 r2 with
      | none => { v with year := y }
      | some (m, r3) =>
        match r3 with
        | '/' :: r4 =>
          match scanInt 2 r4 with
          | none => { v with year := y, month := m }
          | some (d, _) => { year := y, month := m, day := d }
        | _ => { v with year := y, month := m }
    | _ => { v with year := y }

/-- Call `sprintf(buf, "%04d%02d%02d", year, month, day)`. -/
def printDate (v : DateLocals) : List Char :=
  printIntPadded 4 v.year ++ printIntPadded 2 v.month ++ printIntPadded 2 v.day

/-- Function `formatDateToInt`: the contents of the globals `startDate` and `endDate`
computed from `startDateArg` and `endDateArg` (both flags present).  `v` is what the
uninitialised locals hold on entry; the second `sscanf` starts from the values the first
one left.  Both globals are `char[11]`: `none` when a `sprintf` needs more than that (it
writes past the end of the array, undefined in C). -/
def formatDateToInt (startDateArg endDateArg : List Char) (v : DateLocals) :
    Option (List Char × List Char) :=
  let v1 := scanDate startDateArg v
  let v2 := scanDate endDateArg v1
  if (printDate v1).length < 11 ∧ (printDate v2).length < 11 then
    some (printDate v1, printDate v2)
  else none

/-- The four buffers of `processFile` hold strings that fit them: `dtstart[16]`,
`dtend[16]`, `summary[100]`, `location[100]`, each with room for the terminating NUL. -/
def buffersFit (st : ScanState) : Prop :=
  st.dtstart.length < 16 ∧ st.dtend.length < 16 ∧ st.summary.length < 100 ∧
    st.location.length < 100

/-- Body of the `while (fgets ...)` loop of `processFile` for one line: the new state and
the calls to `printFormattedDateTime` it makes (none or one).  The result is `none` when an
`sscanf` writes past the end of `dtstart[16]`, `dtend[16]`, `summary[100]` or
`location[100]`; the behaviour of the program is then undefined. -/
def processLine (startDate endDate : List Char) (st : ScanState) (line : List Char) :
    Option (ScanState × List Event) :=
  if !st.eventStarted then
    if line.take 12 = "BEGIN:VEVENT".toList then some ({ st with eventStarted := true }, [])
    else some (st, [])
  else if line.take 10 = "END:VEVENT".toList then
    let startInt := atoi st.dtstart
    let endInt := atoi st.dtend
    let integerStartDateArg := atoi startDate
    let integerEndDateArg := atoi endDate
    if integerStartDateArg ≤ startInt ∧ integerEndDateArg ≥ endInt then
      some (st, [{ dtstart := st.dtstart, dtend := st.dtend, summary := st.summary,
                   location := st.location }])
    else some (st, [])
  else if line.take 8 = "DTSTART:".toList then
    match scanWord 16 (line.drop 8) with
    | Scanned.noMatch => some (st, [])
    | Scanned.stored w => some ({ st with dtstart := w }, [])
    | Scanned.overflow => none
  else if line.take 6 = "DTEND:".toList then
    match scanWord 16 (line.drop 6) with
    | Scanned.noMatch => some (st, [])
    | Scanned.stored w => some ({ st with dtend := w }, [])
    | Scanned.overflow => none
  else if line.take 8 = "SUMMARY:".toList then
    match scanToNewline 100 (line.drop 8) with
    | Scanned.noMatch => some (st, [])
    | Scanned.stored w => some ({ st with summary := w }, [])
    | Scanned.overflow => none
  else if line.take 9 = "LOCATION:".toList then
    match scanToNewline 100 (line.drop 9) with
    | Scanned.noMatch => some (st, [])
    | Scanned.stored w => some ({ st with location := w }, [])
    | Scanned.overflow => none
  else some (st, [])

/-- The `while (fgets ...)` loop of `processFile` from state `st` over the remaining lines:
the final state and all calls to `printFormattedDateTime`, in order; `none` when a line
overflows a buffer. -/
def processLines (startDate endDate : List Char) :
    ScanState → List (List Char) → Option (ScanState × List Event)
  | st, [] => some (st, [])
  | st, line :: rest =>
    match processLine startDate endDate st line with
    | none => none
    | some r =>
      match processLines startDate endDate r.1 rest with
      | none => none
      | some r2 => some (r2.1, r.2 ++ r2.2)

/-- Function `processFile` on a file that opened: `lines` are the `fgets` results (each at
most 255 characters, the size of `line` less one) and `dtstart0 .. location0` what the
uninitialised buffers hold on entry.  The result lists the events passed to
`printFormattedDateTime`, in order; `none` when a line overflows a buffer. -/
def processFile (lines : List (List Char)) (startDate endDate : List Char)
    (dtstart0 dtend0 summary0 location0 : List Char) : Option (List Event) :=
  (processLines startDate endDate
    { eventStarted := false, dtstart := dtstart0, dtend := dtend0, summary := summary0,
      location := location0 } lines).map Prod.snd

/-- Example input: lines of one event block up to, not including, its `END:VEVENT` line,
with start `20230115T100000`. -/
def januaryBlock : List (List Char) :=
  ["BEGIN:VCALENDAR\n".toList, "BEGIN:VEVENT\n".toList, "DTSTART:20230115T100000\n".toList,
    "DTEND:20230115T113000\n".toList, "SUMMARY:Team meeting\n".toList,
    "LOCATION:Room 101\n".toList]

/-- Example input: the same block with start `20230201T090000`. -/
def februaryBlock : List (List Char) :=
  ["BEGIN:VCALENDAR\n".toList, "BEGIN:VEVENT\n".toList, "DTSTART:20230201T090000\n".toList,
    "DTEND:20230201T100000\n".toList, "SUMMARY:Review\n".toList,
    "LOCATION:Room 102\n".toList]

/-- State of `processFile` before its first line, the four buffers holding empty strings. -/
def emptyScan : ScanState :=
  { eventStarted := false, dtstart := [], dtend := [], summary := [], location := [] }

/-- Output of `%d` of `printf`. -/
def printInt (n : Int) : List Char :=
  if n < 0 then '-' :: Nat.toDigits 10 n.natAbs else Nat.toDigits 10 n.natAbs

/-- Output of `%Nd` of `printf` with minimum width `w`: spaces first, then the number. -/
def printIntSpaced (w : Nat) (n : Int) : List Char :=
  List.replicate (w - (printInt n).length) ' ' ++ printInt n

/-- The five `int` locals that one call of `parseDateTime` writes through its pointers. -/
structure DateTime where
  year : Int
  month : Int
  day : Int
  hour : Int
  minute : Int
deriving DecidableEq, Repr

/-- Function `parseDateTime`, the call `sscanf(dateTime, "%4d%2d%2dT%2d%2d", ...)`:
assignments stop at the first conversion or literal `T` that does not match; `v` holds the
pointed-to locals on entry. -/
def parseDateTime (dateTime : List Char) (v : DateTime) : DateTime :=
  match scanInt 4 dateTime with
  | none => v
  | some (y, r1) =>
    match scanInt 2 r1 with
    | none => { v with year := y }
    | some (mo, r2) =>
      match scanInt 2 r2 with
      | none => { v with year := y, month := mo }
      | some (d, r3) =>
        match r3 with
        | 'T' :: r4 =>
          match scanInt 2 r4 with
          | none => { v with year := y, month := mo, day := d }
          | some (h, r5) =>
            match scanInt 2 r5 with
            | none => { v with year := y, month := mo, day := d, hour := h }
            | some (mi, _) => { year := y, month := mo, day := d, hour := h, minute := mi }
        | _ => { v with year := y, month := mo, day := d }

/-- The array `months` of `printDateHeader`. -/
def months : List (List Char) :=
  ["January".toList, "February".toList, "March".toList, "April".toList, "May".toList,
    "June".toList, "July".toList, "August".toList, "September".toList, "October".toList,
    "November".toList, "December".toList]

/-- Entry `months[month - 1]`.  An index outside the array is undefined in C; the empty
string is returned here. -/
def monthName (month : Int) : List Char :=
  if 1 ≤ month ∧ month ≤ 12 then months.getD (month - 1).toNat [] else []

/-- Text that `printf("%s %02d, %d\n", months[month - 1], day, year)` puts on the header
line, without the newline. -/
def headerLine (month day year : Int) : List Char :=
  monthName month ++ [' '] ++ printIntPadded 2 day ++ [',', ' '] ++ printInt year

/-- Bound of the `for` loop of `printDateHeader` that prints one `-` per pass. -/
def underlineLength (month : Int) : Nat := (monthName month).length + 3 + 2 + 4

/-- Function `printDateHeader`: what it prints and the new value of the global `new_line`,
given the value the global has on entry. -/
def printDateHeader (new_line : Int) (month day year : Int) : List Char × Int :=
  ((if new_line ≠ 0 then ['\n'] else []) ++ headerLine month day year ++ ['\n'] ++
    List.replicate (underlineLength month) '-' ++ ['\n'], 1)

/-- Hour argument of the `printf` in `printDateTimeRange`:
`(hour % 12 == 0) ? 12 : hour % 12`, with the truncating remainder of C. -/
def hour12 (hour : Int) : Int := if hour.tmod 12 = 0 then 12 else hour.tmod 12

/-- Suffix argument of the `printf` in `printDateTimeRange`: `hour < 12 ? "AM" : "PM"`. -/
def meridiem (hour : Int) : List Char := if hour < 12 then "AM".toList else "PM".toList

/-- Text that the `printf` of `printDateTimeRange` puts on the line, without the newline:
format `%2d:%02d %s to %2d:%02d %s: %s` followed by the location in double braces. -/
def rangeText (startHour startMinute endHour endMinute : Int) (summary location : List Char) :
    List Char :=
  printIntSpaced 2 (hour12 startHour) ++ [':'] ++ printIntPadded 2 startMinute ++ [' '] ++
    meridiem startHour ++ " to ".toList ++
    printIntSpaced 2 (hour12 endHour) ++ [':'] ++ printIntPadded 2 endMinute ++ [' '] ++
    meridiem endHour ++ ": ".toList ++ summary ++ " \x7b\x7b".toList ++ location ++
    "\x7d\x7d".toList

/-- Function `printDateTimeRange`: the line it prints. -/
def printDateTimeRange (startHour startMinute endHour endMinute : Int)
    (summary location : List Char) : List Char :=
  rangeText startHour startMinute endHour endMinute summary location ++ ['\n']

/-- The static `prevDay` of `printFormattedDateTime` and the global `new_line`. -/
structure PrintState where
  prevDay : Int
  new_line : Int
deriving DecidableEq, Repr

/-- Values of `prevDay` and `new_line` when the program starts. -/
def initialPrint : PrintState := { prevDay := -1, new_line := 0 }

/-- Function `printFormattedDateTime`: what the call prints and the state after it.
`start0` and `end0` are what its uninitialised locals hold before the two `parseDateTime`
calls. -/
def printFormattedDateTime (start0 end0 : DateTime) (st : PrintState) (e : Event) :
    List Char × PrintState :=
  let s := parseDateTime e.dtstart start0
  let en := parseDateTime e.dtend end0
  if s.day ≠ st.prevDay then
    let h := printDateHeader st.new_line s.month s.day s.year
    (h.1 ++ printDateTimeRange s.hour s.minute en.hour en.minute e.summary e.location,
      { prevDay := s.day, new_line := h.2 })
  else
    (printDateTimeRange s.hour s.minute en.hour en.minute e.summary e.location, st)

/-- What the successive calls of `printFormattedDateTime` print, one entry per call, for the
events in the order `processFile` passes them.  `stack k` is what the locals of call `k`
hold on entry. -/
def printEvents (stack : Nat → DateTime × DateTime) :
    PrintState → Nat → List Event → List (List Char)
  | _, _, [] => []
  | st, k, e :: es =>
    (printFormattedDateTime (stack k).1 (stack k).2 st e).1 ::
      printEvents stack (printFormattedDateTime (stack k).1 (stack k).2 st e).2 (k + 1) es

/-- Number of calls of `printDateHeader` among the calls of `printFormattedDateTime` for the
events: the calls where the test `startDay != prevDay` holds. -/
def headerCount (stack : Nat → DateTime × DateTime) : PrintState → Nat → List Event → Nat
  | _, _, [] => 0
  | st, k, e :: es =>
    (if (parseDateTime e.dtstart (stack k).1).day ≠ st.prevDay then 1 else 0) +
      headerCount stack (printFormattedDateTime (stack k).1 (stack k).2 st e).2 (k + 1) es

/-- Number of empty lines of a text; `atLineStart` says whether the text starts a line. -/
def blankLines : List Char → Bool → Nat
  | [], _ => 0
  | c :: cs, atLineStart =>
    if c = '\n' then (if atLineStart then 1 else 0) + blankLines cs true
    else blankLines cs false

/-- Function `main` on a file that opened, both date flags present: everything written to
standard output; `none` when a buffer overflows. -/
def main (startDateArg endDateArg : List Char) (lines : List (List Char)) (v : DateLocals)
    (dtstart0 dtend0 summary0 location0 : List Char) (stack : Nat → DateTime × DateTime) :
    Option (List Char) :=
  match formatDateToInt startDateArg endDateArg v with
  | none => none
  | some dates =>
    (processFile lines dates.1 dates.2 dtstart0 dtend0 summary0 location0).map
      (fun events => (printEvents stack initialPrint 0 events).flatten)

/-- Values of `prevDay` and `new_line` after the calls of `printFormattedDateTime` for the
events, starting from `st` with call number `k`. -/
def printStateAfter (stack : Nat → DateTime × DateTime) :
    PrintState → Nat → List Event → PrintState
  | st, _, [] => st
  | st, k, e :: es =>
    printStateAfter stack (printFormattedDateTime (stack k).1 (stack k).2 st e).2 (k + 1) es

/-- Example input: two event blocks, one on 15 January 2023 and one on 15 February 2023. -/
def sameDayOfMonthFile : List (List Char) :=
  ["BEGIN:VCALENDAR\n".toList,
    "BEGIN:VEVENT\n".toList, "DTSTART:20230115T100000\n".toList,
    "DTEND:20230115T113000\n".toList, "SUMMARY:Team meeting\n".toList,
    "LOCATION:Room 101\n".toList, "END:VEVENT\n".toList,
    "BEGIN:VEVENT\n".toList, "DTSTART:20230215T090000\n".toList,
    "DTEND:20230215T100000\n".toList, "SUMMARY:Review\n".toList,
    "LOCATION:Room 102\n".toList, "END:VEVENT\n".toList,
    "END:VCALENDAR\n".toList]

/-- Example contents of the uninitialised locals of `printFormattedDateTime`: all zero. -/
def zeroStack : Nat → DateTime × DateTime :=
  fun _ => (⟨0, 0, 0, 0, 0⟩, ⟨0, 0, 0, 0, 0⟩)

/-- Example input: the block of `januaryBlock` closed by its `END:VEVENT` line and followed
by a second `END:VEVENT` line that closes no block. -/
def strayEndFile : List (List Char) :=
  januaryBlock ++ ["END:VEVENT\n".toList, "END:VEVENT\n".toList]

/-- Example input: a closed block, then a `LOCATION:` line outside any block, then a block
that has no `LOCATION:` line. -/
def strayLocationFile : List (List Char) :=
  januaryBlock ++ ["END:VEVENT\n".toList, "LOCATION:Elsewhere\n".toList,
    "BEGIN:VEVENT\n".toList, "DTSTART:20230116T090000\n".toList,
    "DTEND:20230116T100000\n".toList, "SUMMARY:Review\n".toList, "END:VEVENT\n".toList]

end EventManager

/-! ## Theorems: the ordered list of `A2.c` -/

namespace MusicManager

open CLib

variable {R : Type} [LinearOrder R]

theorem mem_add_inorder (l : List (node_t R)) (x y : node_t R) :
    y ∈ add_inorder l x ↔ y = x ∨ y ∈ l := by
  induction l with
  | nil => simp [add_inorder]
  | cons c t ih =>
    unfold add_inorder
    split_ifs with h
    · simp
    · simp only [List.mem_cons, ih]
      tauto

theorem add_inorder_perm (l : List (node_t R)) (x : node_t R) :
    List.Perm (add_inorder l x) (x :: l) := by
  induction l with
  | nil => simp [add_inorder]
  | cons c t ih =>
    unfold add_inorder
    split_ifs with h
    · exact List.Perm.refl _
    · exact (List.Perm.cons c ih).trans (List.Perm.swap x c t)

theorem foldl_add_inorder_perm (ns l : List (node_t R)) :
    List.Perm (ns.foldl add_inorder l) (ns ++ l) := by
  induction ns generalizing l with
  | nil => simp
  | cons n ns ih =>
    simp only [List.foldl_cons, List.cons_append]
    exact (ih _).trans
      ((List.Perm.append_left ns (add_inorder_perm l n)).trans List.perm_middle)

theorem add_inorder_pairwise (l : List (node_t R)) (x : node_t R)
    (h : l.Pairwise (fun a b => a.sorting ≤ b.sorting)) :
    (add_inorder l x).Pairwise (fun a b => a.sorting ≤ b.sorting) := by
  induction l with
  | nil => simp [add_inorder]
  | cons c t ih =>
    rw [List.pairwise_cons] at h
    unfold add_inorder
    split_ifs with hx
    · refine List.Pairwise.cons ?_ (List.Pairwise.cons h.1 h.2)
      intro b hb
      rcases List.mem_cons.1 hb with rfl | hb
      · exact hx
      · exact le_trans hx (h.1 b hb)
    · refine List.Pairwise.cons ?_ (ih h.2)
      intro b hb
      rcases (mem_add_inorder t x b).1 hb with rfl | hb
      · exact le_of_lt (not_le.1 hx)
      · exact h.1 b hb

theorem foldl_add_inorder_pairwise (ns l : List (node_t R))
    (h : l.Pairwise (fun a b => a.sorting ≤ b.sorting)) :
    (ns.foldl add_inorder l).Pairwise (fun a b => a.sorting ≤ b.sorting) := by
  induction ns generalizing l with
  | nil => simpa using h
  | cons n ns ih => exact ih _ (add_inorder_pairwise l n h)

theorem readRows_eq (atof : List Char → R) (options : Options) (stack : Nat → Locals R)
    (lines : List (List Char)) (st : List (node_t R) × Nat) :
    readRows atof options stack lines st =
      ((rowRecords atof options stack lines st.2).foldl add_inorder st.1,
        st.2 + lines.length) := by
  induction lines generalizing st with
  | nil => simp [readRows, rowRecords]
  | cons line rest ih =>
    simp only [readRows, rowRecords, List.foldl_cons, List.length_cons]
    rw [ih]
    simp only [Prod.mk.injEq, true_and]
    omega

theorem readFiles_eq (atof : List Char → R) (options : Options) (stack : Nat → Locals R)
    (files : List (Option (List (List Char)))) (st : List (node_t R) × Nat) :
    (readFiles atof options stack files st).1 =
      (fileRecords atof options stack files st.2).foldl add_inorder st.1 := by
  induction files generalizing st with
  | nil => simp [readFiles, fileRecords]
  | cons f files ih =>
    cases f with
    | none => simp only [readFiles, fileRecords]; exact ih st
    | some lines =>
      simp only [readFiles, fileRecords]
      rw [ih, readRows_eq, List.foldl_append]

/-- C1: starting from the empty list, after any finite sequence of insertions through
add_inorder every adjacent pair (a, b) of the list satisfies a.sorting <= b.sorting; so does
the list extractDataFromCSV builds, one insertion per data row. -/
theorem sortedness_invariant :
    (∀ ns : List (node_t R),
      List.Chain' (fun a b => a.sorting ≤ b.sorting) (ns.foldl add_inorder [])) ∧
    (∀ (atof : List Char → R) (canOpen : Bool) (stack : Nat → Locals R) (options : Options)
        (files : List (Option (List (List Char)))),
      List.Chain' (fun a b => a.sorting ≤ b.sorting)
        (extractDataFromCSV atof canOpen stack options files []).1) := by
  refine ⟨fun ns => ?_, fun atof canOpen stack options files => ?_⟩
  · exact List.Pairwise.chain' (foldl_add_inorder_pairwise ns [] List.Pairwise.nil)
  · simp only [extractDataFromCSV]
    rw [readFiles_eq]
    exact List.Pairwise.chain' (foldl_add_inorder_pairwise _ [] List.Pairwise.nil)

theorem add_inorder_eq_takeWhile (l : List (node_t R)) (x : node_t R) :
    add_inorder l x =
      l.takeWhile (fun a => decide (a.sorting < x.sorting)) ++
        x :: l.dropWhile (fun a => decide (a.sorting < x.sorting)) := by
  induction l with
  | nil => simp [add_inorder]
  | cons c t ih =>
    unfold add_inorder
    split_ifs with h
    · have : ¬ c.sorting < x.sorting := not_lt.2 h
      simp [List.takeWhile, List.dropWhile, this]
    · have : c.sorting < x.sorting := not_le.1 h
      simp [List.takeWhile, List.dropWhile, this, ih]

theorem add_inorder_before_first_ge (pre post : List (node_t R)) (b x : node_t R)
    (hpre : ∀ a ∈ pre, a.sorting < x.sorting) (hb : x.sorting ≤ b.sorting) :
    add_inorder (pre ++ b :: post) x = pre ++ x :: b :: post := by
  induction pre with
  | nil => simp [add_inorder, hb]
  | cons c t ih =>
    have hc : ¬ x.sorting ≤ c.sorting := not_le.2 (hpre c (List.mem_cons_self c t))
    have step : add_inorder (c :: (t ++ b :: post)) x = c :: add_inorder (t ++ b :: post) x := by
      rw [add_inorder, if_neg hc]
    rw [List.cons_append, step, ih (fun a ha => hpre a (List.mem_cons_of_mem c ha))]
    rfl

theorem add_inorder_at_end (l : List (node_t R)) (x : node_t R)
    (hl : ∀ a ∈ l, a.sorting < x.sorting) : add_inorder l x = l ++ [x] := by
  induction l with
  | nil => simp [add_inorder]
  | cons c t ih =>
    have hc : ¬ x.sorting ≤ c.sorting := not_le.2 (hl c (List.mem_cons_self c t))
    rw [add_inorder, if_neg hc, ih (fun a ha => hl a (List.mem_cons_of_mem c ha))]
    rfl

/-- C2: add_inorder places the new record immediately before the first existing record whose
rank is >= the new rank (every record before it has a strictly smaller rank), and at the end
when the list is empty or every existing rank is strictly smaller; inserting rank 2 into
ranks [1, 2, 2] puts the new record at index 1 and shifts the two old rank-2 records right. -/
theorem insertion_placement :
    (∀ (pre post : List (node_t R)) (b x : node_t R),
      (∀ a ∈ pre, a.sorting < x.sorting) → x.sorting ≤ b.sorting →
      add_inorder (pre ++ b :: post) x = pre ++ x :: b :: post) ∧
    (∀ (l : List (node_t R)) (x : node_t R),
      (∀ a ∈ l, a.sorting < x.sorting) → add_inorder l x = l ++ [x]) ∧
    (∀ x : node_t R, add_inorder [] x = [x]) ∧
    add_inorder
      [(⟨['a'], ['s'], 2001, 1⟩ : node_t ℚ), ⟨['b'], ['t'], 2002, 2⟩, ⟨['c'], ['u'], 2003, 2⟩]
      ⟨['n'], ['v'], 2004, 2⟩ =
      [⟨['a'], ['s'], 2001, 1⟩, ⟨['n'], ['v'], 2004, 2⟩, ⟨['b'], ['t'], 2002, 2⟩,
        ⟨['c'], ['u'], 2003, 2⟩] := by
  refine ⟨add_inorder_before_first_ge, add_inorder_at_end, fun x => rfl, ?_⟩
  simp [add_inorder]

/-- Witness of C2 on integer ranks 1, 2, 2 with a new record of rank 2. -/
theorem insertion_placement_witness :
    (∀ a ∈ [(⟨['a'], ['s'], 2001, 1⟩ : node_t Int)], a.sorting < (2 : Int)) ∧
    (2 : Int) ≤ 2 ∧
    add_inorder
      ([(⟨['a'], ['s'], 2001, 1⟩ : node_t Int)] ++
        ⟨['b'], ['t'], 2002, 2⟩ :: [⟨['c'], ['u'], 2003, 2⟩])
      ⟨['n'], ['v'], 2004, 2⟩ =
      [⟨['a'], ['s'], 2001, 1⟩] ++
        ⟨['n'], ['v'], 2004, 2⟩ :: ⟨['b'], ['t'], 2002, 2⟩ :: [⟨['c'], ['u'], 2003, 2⟩] :=
  ⟨by simp, le_refl _,
    insertion_placement.1 [⟨['a'], ['s'], 2001, 1⟩] [⟨['c'], ['u'], 2003, 2⟩]
      ⟨['b'], ['t'], 2002, 2⟩ ⟨['n'], ['v'], 2004, 2⟩ (by simp) (le_refl _)⟩

end MusicManager

/-! ## Theorems: bounded output, ties, unreadable files -/

namespace MusicManager

open CLib

variable {R : Type} [LinearOrder R]

theorem printLoop_eq_take {S : Type} (display : Int) (l : List (node_t S)) (count : Int) :
    printLoop display l count = l.take (display - count).toNat := by
  induction l generalizing count with
  | nil => simp [printLoop]
  | cons c t ih =>
    unfold printLoop
    split_ifs with h
    · have hn : (display - count).toNat = (display - (count + 1)).toNat + 1 := by omega
      rw [ih, hn, List.take_succ_cons]
    · have hn : (display - count).toNat = 0 := by omega
      rw [hn, List.take_zero]

/-- C4: for a list of length L and an integer display count n the loop of print_next_nodes
emits exactly min(n, L) rows when n >= 0 and none when n <= 0; the rows are the first rows
of the list in list order; the list is unchanged and a second call gives the same rows. -/
theorem bounded_take {S : Type} (canOpen : Bool) (l : List (node_t S)) (n : Int)
    (options : Options) :
    printLoop n l 0 = l.take n.toNat ∧
    (0 ≤ n → ((printLoop n l 0).length : Int) = min n (l.length : Int)) ∧
    (n ≤ 0 → printLoop n l 0 = []) ∧
    (print_next_nodes true l n options).1 =
      some { header := "artist,song,year,".toList ++ options.sortBy ++ ['\n'],
             rows := l.take n.toNat } ∧
    (print_next_nodes canOpen l n options).2 = l ∧
    print_next_nodes canOpen (print_next_nodes canOpen l n options).2 n options =
      print_next_nodes canOpen l n options := by
  have key : printLoop n l 0 = l.take n.toNat := by
    rw [printLoop_eq_take, sub_zero]
  have hlist : (print_next_nodes canOpen l n options).2 = l := by
    unfold print_next_nodes
    split_ifs <;> rfl
  refine ⟨key, fun hn => ?_, fun hn => ?_, ?_, hlist, by rw [hlist]⟩
  · rw [key, List.length_take]
    omega
  · have h0 : n.toNat = 0 := by omega
    rw [key, h0, List.take_zero]
  · simp [print_next_nodes, key]

/-- Witness of C4: display count 2 on a list of three records. -/
theorem bounded_take_witness :
    (0 : Int) ≤ 2 ∧
    ((printLoop 2 [(⟨['a'], ['s'], 2001, 1⟩ : node_t Int), ⟨['b'], ['t'], 2002, 2⟩,
        ⟨['c'], ['u'], 2003, 3⟩] 0).length : Int) =
      min 2 (([(⟨['a'], ['s'], 2001, 1⟩ : node_t Int), ⟨['b'], ['t'], 2002, 2⟩,
        ⟨['c'], ['u'], 2003, 3⟩].length : Nat) : Int) :=
  ⟨by decide,
    (bounded_take true [(⟨['a'], ['s'], 2001, 1⟩ : node_t Int), ⟨['b'], ['t'], 2002, 2⟩,
      ⟨['c'], ['u'], 2003, 3⟩] 2 ⟨"energy".toList, 2⟩).2.1 (by decide)⟩

theorem add_inorder_le_all (l : List (node_t R)) (x : node_t R)
    (h : ∀ a ∈ l, x.sorting ≤ a.sorting) : add_inorder l x = x :: l := by
  cases l with
  | nil => rfl
  | cons c t => rw [add_inorder, if_pos (h c (List.mem_cons_self c t))]

theorem foldl_add_inorder_equal_ranks (r : R) (ns l : List (node_t R))
    (hns : ∀ a ∈ ns, a.sorting = r) (hl : ∀ a ∈ l, a.sorting = r) :
    ns.foldl add_inorder l = ns.reverse ++ l := by
  induction ns generalizing l with
  | nil => simp
  | cons n ns ih =>
    have hn : n.sorting = r := hns n (List.mem_cons_self n ns)
    have hstep : add_inorder l n = n :: l :=
      add_inorder_le_all l n (fun a ha => by rw [hn, hl a ha])
    rw [List.foldl_cons, hstep, ih (n :: l) (fun a ha => hns a (List.mem_cons_of_mem n ha))]
    · simp
    · intro a ha
      rcases List.mem_cons.1 ha with rfl | ha
      · exact hn
      · exact hl a ha

/-- C9, as the claim states it, fails: two records of equal rank inserted one after the
other come out newest first, not in the order they were inserted. -/
theorem arrival_order_counterexample :
    [(⟨['f', 'i', 'r', 's', 't'], ['s'], 2001, 0⟩ : node_t Int),
      ⟨['s', 'e', 'c', 'o', 'n', 'd'], ['t'], 2002, 0⟩].foldl add_inorder [] =
      [⟨['s', 'e', 'c', 'o', 'n', 'd'], ['t'], 2002, 0⟩,
        ⟨['f', 'i', 'r', 's', 't'], ['s'], 2001, 0⟩] ∧
    [(⟨['f', 'i', 'r', 's', 't'], ['s'], 2001, 0⟩ : node_t Int),
      ⟨['s', 'e', 'c', 'o', 'n', 'd'], ['t'], 2002, 0⟩].foldl add_inorder [] ≠
      [⟨['f', 'i', 'r', 's', 't'], ['s'], 2001, 0⟩,
        ⟨['s', 'e', 'c', 'o', 'n', 'd'], ['t'], 2002, 0⟩] := by
  decide

/-- C9 (amended): records that all have the same rank, inserted one at a time with
add_inorder into the empty list, end up in the reverse of the order they were inserted. -/
theorem equal_ranks_reverse_arrival (ns : List (node_t R)) (r : R)
    (h : ∀ a ∈ ns, a.sorting = r) : ns.foldl add_inorder [] = ns.reverse := by
  rw [foldl_add_inorder_equal_ranks r ns [] h (fun a ha => by cases ha), List.append_nil]

/-- Witness of the amended C9 on three records of rank 0. -/
theorem equal_ranks_reverse_arrival_witness :
    (∀ a ∈ [(⟨['x'], ['s'], 2001, 0⟩ : node_t Int), ⟨['y'], ['t'], 2002, 0⟩,
      ⟨['z'], ['u'], 2003, 0⟩], a.sorting = 0) ∧
    [(⟨['x'], ['s'], 2001, 0⟩ : node_t Int), ⟨['y'], ['t'], 2002, 0⟩,
      ⟨['z'], ['u'], 2003, 0⟩].foldl add_inorder [] =
      [(⟨['x'], ['s'], 2001, 0⟩ : node_t Int), ⟨['y'], ['t'], 2002, 0⟩,
        ⟨['z'], ['u'], 2003, 0⟩].reverse :=
  ⟨by decide, equal_ranks_reverse_arrival _ 0 (by decide)⟩

theorem readFiles_filter_isSome (atof : List Char → R) (options : Options)
    (stack : Nat → Locals R) (files : List (Option (List (List Char))))
    (st : List (node_t R) × Nat) :
    readFiles atof options stack files st =
      readFiles atof options stack (files.filter Option.isSome) st := by
  induction files generalizing st with
  | nil => rfl
  | cons f files ih =>
    cases f with
    | none => simp only [readFiles, List.filter, Option.isSome]; exact ih st
    | some lines => simp only [readFiles, List.filter, Option.isSome]; exact ih _

theorem fileRecords_filter_isSome {S : Type} (atof : List Char → S) (options : Options)
    (stack : Nat → Locals S) (files : List (Option (List (List Char)))) (k : Nat) :
    fileRecords atof options stack files k =
      fileRecords atof options stack (files.filter Option.isSome) k := by
  induction files generalizing k with
  | nil => rfl
  | cons f files ih =>
    cases f with
    | none => simp only [fileRecords, List.filter, Option.isSome]; exact ih k
    | some lines => simp only [fileRecords, List.filter, Option.isSome]; rw [ih]

/-- C8: with each open modelled as success (some lines) or failure (none), what
extractDataFromCSV builds and writes equals what it builds and writes from only the files
that opened, in the same order; a file that fails to open adds no record and the files
after it are still read; the records ingested are those of the files that opened. -/
theorem unreadable_file_skipped (atof : List Char → R) (canOpen : Bool)
    (stack : Nat → Locals R) (options : Options) (files : List (Option (List (List Char))))
    (list : List (node_t R)) :
    extractDataFromCSV atof canOpen stack options files list =
      extractDataFromCSV atof canOpen stack options (files.filter Option.isSome) list ∧
    (∀ later : List (Option (List (List Char))),
      extractDataFromCSV atof canOpen stack options (none :: later) list =
        extractDataFromCSV atof canOpen stack options later list) ∧
    fileRecords atof options stack files 0 =
      fileRecords atof options stack (files.filter Option.isSome) 0 := by
  refine ⟨?_, fun later => rfl, fileRecords_filter_isSome atof options stack files 0⟩
  simp only [extractDataFromCSV]
  rw [← readFiles_filter_isSome]

end MusicManager

/-! ## Theorems: `parseLine` -/

namespace MusicManager

open CLib

variable {R : Type}

theorem strtokAux_eq_filter_fieldsAux (d : Char) (s cur : List Char) :
    strtokAux d s cur = (fieldsAux d s cur).filter (fun f => decide (f ≠ [])) := by
  induction s generalizing cur with
  | nil =>
    by_cases hc : cur = [] <;> simp [strtokAux, fieldsAux, hc]
  | cons c cs ih =>
    by_cases hd : c = d
    · by_cases hc : cur = [] <;> simp [strtokAux, fieldsAux, hd, hc, ih]
    · simp [strtokAux, fieldsAux, hd, ih]

theorem strtokAll_eq_filter_commaFields (line : List Char) :
    strtokAll ',' line = (commaFields line).filter (fun f => decide (f ≠ [])) :=
  strtokAux_eq_filter_fieldsAux ',' line []

theorem parseLoop_from_8 (atof : List Char → R) (options : Options)
    (tokens : List (List Char)) (field : Nat) (v : Locals R) (h : 8 ≤ field) :
    parseLoop atof options tokens field v = v := by
  induction tokens generalizing field v with
  | nil => rfl
  | cons t ts ih =>
    have hf : parseField atof options field t v = v := by
      match field, h with
      | n + 8, _ => rfl
    rw [parseLoop, hf, ih (field + 1) v (by omega)]

theorem parseLine_of_8_tokens (atof : List Char → R) (options : Options)
    (line : List Char) (v : Locals R) (t0 t1 t2 t3 t4 t5 t6 t7 : List Char)
    (rest : List (List Char))
    (h : strtokAll ',' line = t0 :: t1 :: t2 :: t3 :: t4 :: t5 :: t6 :: t7 :: rest) :
    parseLine atof options line v =
      { artist := t0, song := t1, year := atoi t4,
        sorting :=
          if options.sortBy = "energy".toList then atof t7
          else if options.sortBy = "danceability".toList then atof t6
          else if options.sortBy = "popularity".toList then atof t5
          else v.sorting } := by
  have hpd : "popularity".toList ≠ "danceability".toList := by decide
  have hpe : "popularity".toList ≠ "energy".toList := by decide
  have hde : "danceability".toList ≠ "energy".toList := by decide
  rw [parseLine, h]
  simp only [parseLoop, parseField]
  rw [parseLoop_from_8 atof options rest 8 _ (le_refl 8)]
  by_cases he : options.sortBy = "energy".toList
  · have hd : ¬ options.sortBy = "danceability".toList := by rw [he]; exact hde.symm
    have hp : ¬ options.sortBy = "popularity".toList := by rw [he]; exact hpe.symm
    simp only [if_pos he, if_neg hd, if_neg hp]
  · by_cases hd : options.sortBy = "danceability".toList
    · have hp : ¬ options.sortBy = "popularity".toList := by rw [hd]; exact hpd.symm
      simp only [if_pos hd, if_neg he, if_neg hp]
    · by_cases hp : options.sortBy = "popularity".toList
      · simp only [if_pos hp, if_neg he, if_neg hd]
      · simp only [if_neg hp, if_neg he, if_neg hd]

theorem atofDecimal_of_parts (s : List Char) (m : Int) (k : Nat)
    (h : decimalParts s = (m, k)) : atofDecimal s = (m : ℚ) / (10 : ℚ) ^ k := by
  simp [atofDecimal, h]

/-- C5: for every data line with at least 8 comma-separated fields, numbered the way
parseLine's own counter `field` numbers them (f0, f1, .. are the successive pieces that
strtok returns), and every sort key in popularity, danceability, energy, parseLine gives
artist = field 0, song = field 1, year = atoi of field 4 and rank = atof of field 5, 6 or 7
respectively and of no other field; with sortBy=energy the rank is field 7's value. -/
theorem field_mapping {R : Type} (atof : List Char → R) (display : Int) (line : List Char)
    (v : Locals R) (f0 f1 f2 f3 f4 f5 f6 f7 : List Char) (rest : List (List Char))
    (h : strtokAll ',' line = f0 :: f1 :: f2 :: f3 :: f4 :: f5 :: f6 :: f7 :: rest) :
    parseLine atof ⟨"popularity".toList, display⟩ line v = ⟨f0, f1, atoi f4, atof f5⟩ ∧
    parseLine atof ⟨"danceability".toList, display⟩ line v = ⟨f0, f1, atoi f4, atof f6⟩ ∧
    parseLine atof ⟨"energy".toList, display⟩ line v = ⟨f0, f1, atoi f4, atof f7⟩ := by
  have hpd : "popularity".toList ≠ "danceability".toList := by decide
  have hpe : "popularity".toList ≠ "energy".toList := by decide
  have hde : "danceability".toList ≠ "energy".toList := by decide
  refine ⟨?_, ?_, ?_⟩
  · rw [parseLine_of_8_tokens atof _ line v _ _ _ _ _ _ _ _ _ h]
    simp only [if_neg hpe, if_neg hpd, if_true]
  · rw [parseLine_of_8_tokens atof _ line v _ _ _ _ _ _ _ _ _ h]
    simp only [if_neg hde, if_true]
  · rw [parseLine_of_8_tokens atof _ line v _ _ _ _ _ _ _ _ _ h]
    simp only [if_true]

/-- Witness of C5: the row `Adele,Hello,233,False,,2015,0.8,0.5,0.9` (fields 0, 1, 4, 5, 6,
7 are Adele, Hello, 2015, 0.8, 0.5, 0.9) with sortBy=energy gives year 2015 and rank 0.9,
the value of field 7, not 0.8 (field 5) or 0.5 (field 6). -/
theorem field_mapping_witness :
    strtokAll ',' "Adele,Hello,233,False,,2015,0.8,0.5,0.9\n".toList =
      "Adele".toList :: "Hello".toList :: "233".toList :: "False".toList :: "2015".toList ::
        "0.8".toList :: "0.5".toList :: "0.9\n".toList :: [] ∧
    parseLine atofDecimal ⟨"energy".toList, 2⟩
        "Adele,Hello,233,False,,2015,0.8,0.5,0.9\n".toList ⟨[], [], 0, 0⟩ =
      ⟨"Adele".toList, "Hello".toList, atoi "2015".toList, atofDecimal "0.9\n".toList⟩ ∧
    atoi "2015".toList = 2015 ∧ atofDecimal "0.9\n".toList = 9 / 10 ∧
    atofDecimal "0.9\n".toList ≠ atofDecimal "0.8".toList ∧
    atofDecimal "0.9\n".toList ≠ atofDecimal "0.5".toList := by
  have h9 := atofDecimal_of_parts "0.9\n".toList 9 1 (by decide)
  have h8 := atofDecimal_of_parts "0.8".toList 8 1 (by decide)
  have h5 := atofDecimal_of_parts "0.5".toList 5 1 (by decide)
  refine ⟨by decide,
    (field_mapping atofDecimal 2 "Adele,Hello,233,False,,2015,0.8,0.5,0.9\n".toList
      ⟨[], [], 0, 0⟩ "Adele".toList "Hello".toList "233".toList "False".toList
      "2015".toList "0.8".toList "0.5".toList "0.9\n".toList [] (by decide)).2.2,
    by decide, ?_, ?_, ?_⟩
  · rw [h9]; norm_num
  · rw [h9, h8]; norm_num
  · rw [h9, h5]; norm_num

theorem strtokAll_of_8_nonempty_fields (line : List Char)
    (f0 f1 f2 f3 f4 f5 f6 f7 : List Char) (rest : List (List Char))
    (h : commaFields line = f0 :: f1 :: f2 :: f3 :: f4 :: f5 :: f6 :: f7 :: rest)
    (h0 : f0 ≠ []) (h1 : f1 ≠ []) (h2 : f2 ≠ []) (h3 : f3 ≠ []) (h4 : f4 ≠ [])
    (h5 : f5 ≠ []) (h6 : f6 ≠ []) (h7 : f7 ≠ []) :
    strtokAll ',' line =
      f0 :: f1 :: f2 :: f3 :: f4 :: f5 :: f6 :: f7 ::
        rest.filter (fun f => decide (f ≠ [])) := by
  rw [strtokAll_eq_filter_commaFields, h]
  simp [List.filter, h0, h1, h2, h3, h4, h5, h6, h7]

end MusicManager

/-! ## Theorems: locals that `parseLine` leaves unset -/

namespace MusicManager

open CLib

theorem parseField_sorting_unmatched {R : Type} (atof : List Char → R) (options : Options)
    (field : Nat) (token : List Char) (v : Locals R)
    (hp : options.sortBy ≠ "popularity".toList) (hd : options.sortBy ≠ "danceability".toList)
    (he : options.sortBy ≠ "energy".toList) :
    (parseField atof options field token v).sorting = v.sorting := by
  unfold parseField
  split <;> simp only [if_neg hp, if_neg hd, if_neg he]

theorem parseLoop_sorting_unmatched {R : Type} (atof : List Char → R) (options : Options)
    (tokens : List (List Char)) (field : Nat) (v : Locals R)
    (hp : options.sortBy ≠ "popularity".toList) (hd : options.sortBy ≠ "danceability".toList)
    (he : options.sortBy ≠ "energy".toList) :
    (parseLoop atof options tokens field v).sorting = v.sorting := by
  induction tokens generalizing field v with
  | nil => rfl
  | cons t ts ih =>
    rw [parseLoop, ih, parseField_sorting_unmatched atof options field t v hp hd he]

/-- C6 on the code: with sortBy=tempo, which is none of the three keys, parseLine never
writes the local `sorting`, so the record built for the row `A,B,c,d,2000,0.5,0.6,0.7` has
as rank whatever the uninitialised local held (`stack 0`), for instance 7 and not 0. -/
theorem unmatched_key_rank_is_uninitialised :
    (∀ stack : Nat → Locals ℚ,
      (extractDataFromCSV atofDecimal true stack ⟨"tempo".toList, 1⟩
        [some ["artist,song,duration,explicit,year,popularity,danceability,energy\n".toList,
          "A,B,c,d,2000,0.5,0.6,0.7\n".toList]] []).1 =
        [⟨['A'], ['B'], 2000, (stack 0).sorting⟩]) ∧
    (extractDataFromCSV atofDecimal true (fun _ => ⟨[], [], 0, 7⟩) ⟨"tempo".toList, 1⟩
        [some ["artist,song,duration,explicit,year,popularity,danceability,energy\n".toList,
          "A,B,c,d,2000,0.5,0.6,0.7\n".toList]] []).1 =
      [⟨['A'], ['B'], 2000, 7⟩] ∧
    (7 : ℚ) ≠ 0 := by
  have htok : strtokAll ',' "A,B,c,d,2000,0.5,0.6,0.7\n".toList =
      ['A'] :: ['B'] :: ['c'] :: ['d'] :: "2000".toList :: "0.5".toList :: "0.6".toList ::
        "0.7\n".toList :: [] := by decide
  have hy : atoi "2000".toList = 2000 := by decide
  have hp : ¬ "tempo".toList = "popularity".toList := by decide
  have hd : ¬ "tempo".toList = "danceability".toList := by decide
  have he : ¬ "tempo".toList = "energy".toList := by decide
  have hline : ∀ v : Locals ℚ,
      parseLine atofDecimal ⟨"tempo".toList, 1⟩ "A,B,c,d,2000,0.5,0.6,0.7\n".toList v =
        ⟨['A'], ['B'], 2000, v.sorting⟩ := by
    intro v
    rw [parseLine_of_8_tokens atofDecimal _ _ v _ _ _ _ _ _ _ _ _ htok, hy]
    simp only [if_neg hp, if_neg hd, if_neg he]
  have hall : ∀ stack : Nat → Locals ℚ,
      (extractDataFromCSV atofDecimal true stack ⟨"tempo".toList, 1⟩
        [some ["artist,song,duration,explicit,year,popularity,danceability,energy\n".toList,
          "A,B,c,d,2000,0.5,0.6,0.7\n".toList]] []).1 =
        [⟨['A'], ['B'], 2000, (stack 0).sorting⟩] := by
    intro stack
    simp only [extractDataFromCSV, readFiles, List.drop, readRows, hline, createNode,
      add_inorder]
  exact ⟨hall, hall _, by norm_num⟩

/-- C7 on the code: the row `Adele,Hello` has two tokens, so parseLine writes only artist
and song; the record's year and rank are whatever the uninitialised locals held (`stack 0`),
for instance 1999 and 7 and not 0 and 0.0. -/
theorem short_line_fields_are_uninitialised :
    (∀ stack : Nat → Locals ℚ,
      (extractDataFromCSV atofDecimal true stack ⟨"energy".toList, 1⟩
        [some ["artist,song,duration,explicit,year,popularity,danceability,energy\n".toList,
          "Adele,Hello\n".toList]] []).1 =
        [⟨"Adele".toList, "Hello\n".toList, (stack 0).year, (stack 0).sorting⟩]) ∧
    (extractDataFromCSV atofDecimal true (fun _ => ⟨[], [], 1999, 7⟩) ⟨"energy".toList, 1⟩
        [some ["artist,song,duration,explicit,year,popularity,danceability,energy\n".toList,
          "Adele,Hello\n".toList]] []).1 =
      [⟨"Adele".toList, "Hello\n".toList, 1999, 7⟩] ∧
    (∀ stack : Nat → Locals ℚ,
      (extractDataFromCSV atofDecimal true stack ⟨"energy".toList, 1⟩
        [some ["artist,song,duration,explicit,year,popularity,danceability,energy\n".toList,
          ",".toList]] []).1 =
        [⟨(stack 0).artist, (stack 0).song, (stack 0).year, (stack 0).sorting⟩]) := by
  have htok : strtokAll ',' "Adele,Hello\n".toList =
      ["Adele".toList, "Hello\n".toList] := by decide
  have htok0 : strtokAll ',' ",".toList = [] := by decide
  have hline : ∀ v : Locals ℚ,
      parseLine atofDecimal ⟨"energy".toList, 1⟩ "Adele,Hello\n".toList v =
        ⟨"Adele".toList, "Hello\n".toList, v.year, v.sorting⟩ := by
    intro v
    rw [parseLine, htok]
    rfl
  have hline0 : ∀ v : Locals ℚ,
      parseLine atofDecimal ⟨"energy".toList, 1⟩ ",".toList v = v := by
    intro v
    rw [parseLine, htok0]
    rfl
  have hall : ∀ stack : Nat → Locals ℚ,
      (extractDataFromCSV atofDecimal true stack ⟨"energy".toList, 1⟩
        [some ["artist,song,duration,explicit,year,popularity,danceability,energy\n".toList,
          "Adele,Hello\n".toList]] []).1 =
        [⟨"Adele".toList, "Hello\n".toList, (stack 0).year, (stack 0).sorting⟩] := by
    intro stack
    simp only [extractDataFromCSV, readFiles, List.drop, readRows, hline, createNode,
      add_inorder]
  refine ⟨hall, hall _, fun stack => ?_⟩
  simp only [extractDataFromCSV, readFiles, List.drop, readRows, hline0, createNode,
    add_inorder]

end MusicManager

/-! ## Theorems: end-to-end ranking -/

namespace MusicManager

open CLib

/-- C3: the list extractDataFromCSV builds is a rearrangement of all ingested records (one
per data row of every file that opened) in ascending order of rank, and the data rows it
writes are exactly the first min(N, total) records of that list, N the display count (none
for N <= 0); rows with energy 0.9, 0.2, 0.5, sortBy=energy and display=2 give exactly the
two rows 0.2 then 0.5. -/
theorem end_to_end_ranking {R : Type} [LinearOrder R] (atof : List Char → R)
    (stack : Nat → Locals R) (options : Options)
    (files : List (Option (List (List Char)))) :
    List.Perm (extractDataFromCSV atof true stack options files []).1
      (fileRecords atof options stack files 0) ∧
    List.Pairwise (fun a b => a.sorting ≤ b.sorting)
      (extractDataFromCSV atof true stack options files []).1 ∧
    (extractDataFromCSV atof true stack options files []).2 =
      some { header := "artist,song,year,".toList ++ options.sortBy ++ ['\n'],
             rows := (extractDataFromCSV atof true stack options files []).1.take
               options.display.toNat } ∧
    Option.map (fun out => out.rows.length)
        (extractDataFromCSV atof true stack options files []).2 =
      some (min options.display.toNat (fileRecords atof options stack files 0).length) ∧
    (extractDataFromCSV atofDecimal true (fun _ => ⟨[], [], 0, 0⟩) ⟨"energy".toList, 2⟩
        [some ["artist,song,duration,explicit,year,popularity,danceability,energy\n".toList,
          "A,x,p,q,2000,50,0.7,0.9\n".toList, "B,y,p,q,2001,60,0.6,0.2\n".toList,
          "C,z,p,q,2002,70,0.5,0.5\n".toList]] []).2 =
      some { header := "artist,song,year,energy\n".toList,
             rows := [⟨['B'], ['y'], 2001, 2 / 10⟩, ⟨['C'], ['z'], 2002, 5 / 10⟩] } := by
  have hbuilt : (extractDataFromCSV atof true stack options files []).1 =
      (fileRecords atof options stack files 0).foldl add_inorder [] := by
    simp only [extractDataFromCSV]
    rw [readFiles_eq]
  have hperm : List.Perm (extractDataFromCSV atof true stack options files []).1
      (fileRecords atof options stack files 0) := by
    rw [hbuilt]
    simpa using foldl_add_inorder_perm (fileRecords atof options stack files 0) []
  have hout : (extractDataFromCSV atof true stack options files []).2 =
      some { header := "artist,song,year,".toList ++ options.sortBy ++ ['\n'],
             rows := (extractDataFromCSV atof true stack options files []).1.take
               options.display.toNat } := by
    simp only [extractDataFromCSV, print_next_nodes, if_true]
    rw [printLoop_eq_take, sub_zero]
  refine ⟨hperm, ?_, hout, ?_, ?_⟩
  · rw [hbuilt]
    exact foldl_add_inorder_pairwise _ [] List.Pairwise.nil
  · rw [hout]
    simp only [Option.map_some', List.length_take, hperm.length_eq]
  · have e : (⟨"energy".toList, 2⟩ : Options).sortBy = "energy".toList := rfl
    have k1 : strtokAll ',' "A,x,p,q,2000,50,0.7,0.9\n".toList =
        ['A'] :: ['x'] :: ['p'] :: ['q'] :: "2000".toList :: "50".toList :: "0.7".toList ::
          "0.9\n".toList :: [] := by decide
    have k2 : strtokAll ',' "B,y,p,q,2001,60,0.6,0.2\n".toList =
        ['B'] :: ['y'] :: ['p'] :: ['q'] :: "2001".toList :: "60".toList :: "0.6".toList ::
          "0.2\n".toList :: [] := by decide
    have k3 : strtokAll ',' "C,z,p,q,2002,70,0.5,0.5\n".toList =
        ['C'] :: ['z'] :: ['p'] :: ['q'] :: "2002".toList :: "70".toList :: "0.5".toList ::
          "0.5\n".toList :: [] := by decide
    have y1 : atoi "2000".toList = 2000 := by decide
    have y2 : atoi "2001".toList = 2001 := by decide
    have y3 : atoi "2002".toList = 2002 := by decide
    have f1 := atofDecimal_of_parts "0.9\n".toList 9 1 (by decide)
    have f2 := atofDecimal_of_parts "0.2\n".toList 2 1 (by decide)
    have f3 := atofDecimal_of_parts "0.5\n".toList 5 1 (by decide)
    have l1 : ∀ v : Locals ℚ, parseLine atofDecimal ⟨"energy".toList, 2⟩
        "A,x,p,q,2000,50,0.7,0.9\n".toList v = ⟨['A'], ['x'], 2000, 9 / 10⟩ := by
      intro v
      rw [parseLine_of_8_tokens atofDecimal _ _ v _ _ _ _ _ _ _ _ _ k1, y1, if_pos e, f1]
      norm_num
    have l2 : ∀ v : Locals ℚ, parseLine atofDecimal ⟨"energy".toList, 2⟩
        "B,y,p,q,2001,60,0.6,0.2\n".toList v = ⟨['B'], ['y'], 2001, 2 / 10⟩ := by
      intro v
      rw [parseLine_of_8_tokens atofDecimal _ _ v _ _ _ _ _ _ _ _ _ k2, y2, if_pos e, f2]
      norm_num
    have l3 : ∀ v : Locals ℚ, parseLine atofDecimal ⟨"energy".toList, 2⟩
        "C,z,p,q,2002,70,0.5,0.5\n".toList v = ⟨['C'], ['z'], 2002, 5 / 10⟩ := by
      intro v
      rw [parseLine_of_8_tokens atofDecimal _ _ v _ _ _ _ _ _ _ _ _ k3, y3, if_pos e, f3]
      norm_num
    have hb : add_inorder (add_inorder (add_inorder []
          (⟨['A'], ['x'], 2000, 9 / 10⟩ : node_t ℚ)) ⟨['B'], ['y'], 2001, 2 / 10⟩)
          ⟨['C'], ['z'], 2002, 5 / 10⟩ =
        [⟨['B'], ['y'], 2001, 2 / 10⟩, ⟨['C'], ['z'], 2002, 5 / 10⟩,
          ⟨['A'], ['x'], 2000, 9 / 10⟩] := by
      have c1 : (2 : ℚ) / 10 ≤ 9 / 10 := by norm_num
      have c2 : ¬ (5 : ℚ) / 10 ≤ 2 / 10 := by norm_num
      have c3 : (5 : ℚ) / 10 ≤ 9 / 10 := by norm_num
      simp only [add_inorder, if_pos c1, if_neg c2, if_pos c3]
    simp only [extractDataFromCSV, readFiles, List.drop, readRows, l1, l2, l3, createNode,
      print_next_nodes, if_true]
    rw [hb, printLoop_eq_take]
    rfl

end MusicManager

/-! ## Theorems: date range of `A1.c` -/

namespace EventManager

open CLib

theorem digitsVal_append_digits (ds rest : List Char) (acc : Nat)
    (h : ∀ c ∈ ds, c.isDigit = true) :
    digitsVal (ds ++ rest) acc = digitsVal rest (digitsVal ds acc) := by
  induction ds generalizing acc with
  | nil => rfl
  | cons d ds ih =>
    have hd : d.isDigit = true := h d (List.mem_cons_self d ds)
    simp only [List.cons_append, digitsVal, hd, if_true]
    exact ih _ (fun c hc => h c (List.mem_cons_of_mem d hc))

theorem isDigit_not_isspace (c : Char) (h : c.isDigit = true) : isspace c = false := by
  cases hsp : isspace c with
  | false => rfl
  | true =>
    simp only [isspace, Bool.or_eq_true, decide_eq_true_eq] at hsp
    rcases hsp with ((((hc | hc) | hc) | hc) | hc) | hc <;>
      · rw [hc] at h
        exact absurd h (by decide)

theorem atoi_of_date_prefix (ds tail : List Char) (hlen : ds.length = 8)
    (h : ∀ c ∈ ds, c.isDigit = true) :
    atoi (ds ++ 'T' :: tail) = (digitsVal ds 0 : Int) := by
  have hval : digitsVal (ds ++ 'T' :: tail) 0 = digitsVal ds 0 := by
    rw [digitsVal_append_digits ds _ 0 h]
    rfl
  cases ds with
  | nil => simp at hlen
  | cons d ds =>
    have hd : d.isDigit = true := h d (List.mem_cons_self d ds)
    have hsp : isspace d = false := isDigit_not_isspace d hd
    have hminus : d ≠ '-' := by
      intro e
      rw [e] at hd
      exact absurd hd (by decide)
    have hplus : d ≠ '+' := by
      intro e
      rw [e] at hd
      exact absurd hd (by decide)
    have hdrop : List.dropWhile isspace (d :: ds ++ 'T' :: tail) = d :: ds ++ 'T' :: tail := by
      simp [List.dropWhile, hsp]
    unfold atoi
    rw [hdrop]
    split
    · rename_i r heq
      exact absurd (List.cons.inj heq).1 hminus
    · rename_i r heq
      exact absurd (List.cons.inj heq).1 hplus
    · exact congrArg Nat.cast hval

theorem processLines_append (startDate endDate : List Char) (st st1 : ScanState)
    (l1 l2 : List (List Char)) (ev1 : List Event)
    (h : processLines startDate endDate st l1 = some (st1, ev1)) :
    processLines startDate endDate st (l1 ++ l2) =
      (processLines startDate endDate st1 l2).map (fun r => (r.1, ev1 ++ r.2)) := by
  induction l1 generalizing st ev1 with
  | nil =>
    rw [processLines] at h
    injection h with h
    injection h with h1 h2
    subst h1
    subst h2
    cases hr : processLines startDate endDate st l2 with
    | none => rw [List.nil_append, hr]; rfl
    | some r => rw [List.nil_append, hr]; rfl
  | cons l l1 ih =>
    rw [processLines] at h
    cases hl : processLine startDate endDate st l with
    | none => rw [hl] at h; exact absurd h (by simp)
    | some r =>
      rw [hl] at h
      dsimp only at h
      cases hr : processLines startDate endDate r.1 l1 with
      | none => rw [hr] at h; exact absurd h (by simp)
      | some r2 =>
        rw [hr] at h
        dsimp only at h
        injection h with h
        injection h with h1 h2
        have hr' : processLines startDate endDate r.1 l1 = some (st1, r2.2) := by
          rw [hr, ← h1]
        rw [List.cons_append, processLines, hl]
        dsimp only
        rw [ih r.1 r2.2 hr', ← h2]
        cases processLines startDate endDate st1 l2 with
        | none => rfl
        | some r3 => simp only [Option.map_some', List.append_assoc]

theorem processLine_end_vevent (startDate endDate : List Char) (st : ScanState)
    (line : List Char) (hst : st.eventStarted = true)
    (hline : line.take 10 = "END:VEVENT".toList) :
    processLine startDate endDate st line =
      some (st, if atoi startDate ≤ atoi st.dtstart ∧ atoi st.dtend ≤ atoi endDate then
        [{ dtstart := st.dtstart, dtend := st.dtend, summary := st.summary,
           location := st.location }] else []) := by
  unfold processLine
  rw [hst, if_neg (by simp), if_pos hline]
  by_cases hc : atoi startDate ≤ atoi st.dtstart ∧ atoi st.dtend ≤ atoi endDate
  · rw [if_pos hc, if_pos hc]
  · rw [if_neg hc, if_neg hc]

theorem scanWord_stored_length (size : Nat) (s w : List Char)
    (h : scanWord size s = Scanned.stored w) : w.length < size := by
  unfold scanWord at h
  dsimp only at h
  split_ifs at h with h1 h2
  injection h with h
  rw [← h]
  exact h2

theorem scanToNewline_stored_length (size : Nat) (s w : List Char)
    (h : scanToNewline size s = Scanned.stored w) : w.length < size := by
  unfold scanToNewline at h
  dsimp only at h
  split_ifs at h with h1 h2
  injection h with h
  rw [← h]
  exact h2

theorem processLine_cases (startDate endDate : List Char) (st : ScanState) (line : List Char)
    (r : ScanState × List Event) (h : processLine startDate endDate st line = some r) :
    r.1 = st ∨ (st.eventStarted = false ∧ r.1 = { st with eventStarted := true }) ∨
    (st.eventStarted = true ∧ line.take 8 = "DTSTART:".toList ∧
      ∃ w, scanWord 16 (line.drop 8) = Scanned.stored w ∧ r.1 = { st with dtstart := w }) ∨
    (st.eventStarted = true ∧ line.take 6 = "DTEND:".toList ∧
      ∃ w, scanWord 16 (line.drop 6) = Scanned.stored w ∧ r.1 = { st with dtend := w }) ∨
    (st.eventStarted = true ∧ line.take 8 = "SUMMARY:".toList ∧
      ∃ w, scanToNewline 100 (line.drop 8) = Scanned.stored w ∧
        r.1 = { st with summary := w }) ∨
    (st.eventStarted = true ∧ line.take 9 = "LOCATION:".toList ∧
      ∃ w, scanToNewline 100 (line.drop 9) = Scanned.stored w ∧
        r.1 = { st with location := w }) := by
  unfold processLine at h
  dsimp only at h
  by_cases hs : st.eventStarted = true
  · rw [hs] at h
    simp only [Bool.not_true, Bool.false_eq_true, if_false] at h
    by_cases c1 : line.take 10 = "END:VEVENT".toList
    · rw [if_pos c1] at h
      split_ifs at h <;> (injection h with h; exact Or.inl (by rw [← h]))
    · rw [if_neg c1] at h
      by_cases c2 : line.take 8 = "DTSTART:".toList
      · rw [if_pos c2] at h
        cases hw : scanWord 16 (line.drop 8) with
        | noMatch => rw [hw] at h; injection h with h; exact Or.inl (by rw [← h])
        | stored w =>
          rw [hw] at h; injection h with h
          exact Or.inr (Or.inr (Or.inl ⟨hs, c2, w, rfl, by rw [← h, hs]⟩))
        | overflow => rw [hw] at h; exact absurd h (by simp)
      · rw [if_neg c2] at h
        by_cases c3 : line.take 6 = "DTEND:".toList
        · rw [if_pos c3] at h
          cases hw : scanWord 16 (line.drop 6) with
          | noMatch => rw [hw] at h; injection h with h; exact Or.inl (by rw [← h])
          | stored w =>
            rw [hw] at h; injection h with h
            exact Or.inr (Or.inr (Or.inr (Or.inl ⟨hs, c3, w, rfl, by rw [← h, hs]⟩)))
          | overflow => rw [hw] at h; exact absurd h (by simp)
        · rw [if_neg c3] at h
          by_cases c4 : line.take 8 = "SUMMARY:".toList
          · rw [if_pos c4] at h
            cases hw : scanToNewline 100 (line.drop 8) with
            | noMatch => rw [hw] at h; injection h with h; exact Or.inl (by rw [← h])
            | stored w =>
              rw [hw] at h; injection h with h
              exact Or.inr (Or.inr (Or.inr (Or.inr (Or.inl ⟨hs, c4, w, rfl, by rw [← h, hs]⟩))))
            | overflow => rw [hw] at h; exact absurd h (by simp)
          · rw [if_neg c4] at h
            by_cases c5 : line.take 9 = "LOCATION:".toList
            · rw [if_pos c5] at h
              cases hw : scanToNewline 100 (line.drop 9) with
              | noMatch => rw [hw] at h; injection h with h; exact Or.inl (by rw [← h])
              | stored w =>
                rw [hw] at h; injection h with h
                exact Or.inr (Or.inr (Or.inr (Or.inr (Or.inr ⟨hs, c5, w, rfl, by rw [← h, hs]⟩))))
              | overflow => rw [hw] at h; exact absurd h (by simp)
            · rw [if_neg c5] at h
              injection h with h
              exact Or.inl (by rw [← h])
  · have hs' : st.eventStarted = false := by
      cases hb : st.eventStarted with
      | true => exact absurd hb hs
      | false => rfl
    rw [hs'] at h
    simp only [Bool.not_false, if_true] at h
    split_ifs at h
    · injection h with h
      exact Or.inr (Or.inl ⟨hs', by rw [← h]⟩)
    · injection h with h
      exact Or.inl (by rw [← h])

theorem processLine_buffersFit (startDate endDate : List Char) (st : ScanState)
    (line : List Char) (r : ScanState × List Event) (hfit : buffersFit st)
    (h : processLine startDate endDate st line = some r) : buffersFit r.1 := by
  obtain ⟨f1, f2, f3, f4⟩ := hfit
  rcases processLine_cases startDate endDate st line r h with
    e | ⟨_, e⟩ | ⟨_, _, w, hw, e⟩ | ⟨_, _, w, hw, e⟩ | ⟨_, _, w, hw, e⟩ | ⟨_, _, w, hw, e⟩
  · rw [e]; exact ⟨f1, f2, f3, f4⟩
  · rw [e]; exact ⟨f1, f2, f3, f4⟩
  · rw [e]; exact ⟨scanWord_stored_length _ _ _ hw, f2, f3, f4⟩
  · rw [e]; exact ⟨f1, scanWord_stored_length _ _ _ hw, f3, f4⟩
  · rw [e]; exact ⟨f1, f2, scanToNewline_stored_length _ _ _ hw, f4⟩
  · rw [e]; exact ⟨f1, f2, f3, scanToNewline_stored_length _ _ _ hw⟩

theorem processLines_cons_some (startDate endDate : List Char) (st : ScanState)
    (line : List Char) (rest : List (List Char)) (r : ScanState × List Event)
    (h : processLines startDate endDate st (line :: rest) = some r) :
    ∃ r1 r2, processLine startDate endDate st line = some r1 ∧
      processLines startDate endDate r1.1 rest = some r2 ∧ r = (r2.1, r1.2 ++ r2.2) := by
  rw [processLines] at h
  cases hl : processLine startDate endDate st line with
  | none => rw [hl] at h; exact absurd h (by simp)
  | some r1 =>
    rw [hl] at h
    dsimp only at h
    cases hr : processLines startDate endDate r1.1 rest with
    | none => rw [hr] at h; exact absurd h (by simp)
    | some r2 =>
      rw [hr] at h
      dsimp only at h
      injection h with h
      exact ⟨r1, r2, rfl, hr, h.symm⟩

theorem processLines_buffersFit (startDate endDate : List Char) (lines : List (List Char))
    (st : ScanState) (r : ScanState × List Event) (hfit : buffersFit st)
    (h : processLines startDate endDate st lines = some r) : buffersFit r.1 := by
  induction lines generalizing st r with
  | nil =>
    rw [processLines] at h
    injection h with h
    rw [← h]
    exact hfit
  | cons l ls ih =>
    obtain ⟨r1, r2, h1, h2, e⟩ := processLines_cons_some _ _ _ _ _ _ h
    rw [e]
    exact ih r1.1 r2 (processLine_buffersFit _ _ _ _ _ hfit h1) h2

end EventManager

namespace EventManager

open CLib

/-- C10: in a run that stays within the buffers (lines as fgets returns them, at most 255
characters; no value written past dtstart[16], dtend[16], summary[100], location[100] or
the date globals), on the END:VEVENT line of an event block
whose stored DTSTART and DTEND are eight digits (YYYYMMDD) followed by T and a time of day,
processFile prints the event if and only if startBound <= D(DTSTART) and
D(DTEND) <= endBound, both inclusive, where D is the value of the eight leading digits and
the bounds are atoi of the strings formatDateToInt produced; the time-of-day parts ts, te
(at most six characters, or the timestamp would not fit dtstart[16], dtend[16]) do not
enter the decision. -/
theorem date_range_inclusion (startDateArg endDateArg : List Char) (v : DateLocals)
    (startDate endDate : List Char) (st0 st : ScanState) (printed : List Event)
    (before after : List (List Char)) (line ds ts de te : List Char)
    (hdates : formatDateToInt startDateArg endDateArg v = some (startDate, endDate))
    (hfgets : ∀ l ∈ before ++ line :: after, l.length < 256)
    (hfit : buffersFit st0)
    (hbefore : processLines startDate endDate st0 before = some (st, printed))
    (hstarted : st.eventStarted = true)
    (hline : line.take 10 = "END:VEVENT".toList)
    (hds : ds.length = 8) (hdd : ∀ c ∈ ds, c.isDigit = true)
    (hde : de.length = 8) (hed : ∀ c ∈ de, c.isDigit = true)
    (hs : st.dtstart = ds ++ 'T' :: ts) (he : st.dtend = de ++ 'T' :: te) :
    startDate.length < 11 ∧ endDate.length < 11 ∧ buffersFit st ∧
    ts.length ≤ 6 ∧ te.length ≤ 6 ∧
    processLines startDate endDate st0 (before ++ line :: after) =
      (processLines startDate endDate st after).map (fun r =>
        (r.1, printed ++
          ((if atoi startDate ≤ (digitsVal ds 0 : Int) ∧
              (digitsVal de 0 : Int) ≤ atoi endDate then
            [{ dtstart := ds ++ 'T' :: ts, dtend := de ++ 'T' :: te,
               summary := st.summary, location := st.location }]
           else []) ++ r.2))) := by
  have hfitst : buffersFit st := processLines_buffersFit _ _ _ _ _ hfit hbefore
  have hlen : startDate.length < 11 ∧ endDate.length < 11 := by
    unfold formatDateToInt at hdates
    dsimp only at hdates
    split_ifs at hdates with hc
    injection hdates with hd
    injection hd with h1 h2
    rw [← h1, ← h2]
    exact hc
  have hts : ts.length ≤ 6 := by
    have := hfitst.1
    rw [hs, List.length_append, List.length_cons, hds] at this
    omega
  have hte : te.length ≤ 6 := by
    have := hfitst.2.1
    rw [he, List.length_append, List.length_cons, hde] at this
    omega
  refine ⟨hlen.1, hlen.2, hfitst, hts, hte, ?_⟩
  rw [processLines_append _ _ _ _ _ _ _ hbefore, processLines,
    processLine_end_vevent _ _ _ line hstarted hline, hs, he,
    atoi_of_date_prefix ds ts hds hdd, atoi_of_date_prefix de te hde hed]
  dsimp only
  cases processLines startDate endDate st after with
  | none => rfl
  | some r => rfl

/-- Witness of C10: bounds 2023/01/01 .. 2023/01/31; the event starting 20230115T100000 is
printed, the event starting 20230201T090000 is not; a timestamp with a zone suffix,
20230115T100000Z, needs 17 bytes and overflows dtstart[16]. -/
theorem date_range_inclusion_witness :
    formatDateToInt "2023/01/01".toList "2023/01/31".toList ⟨0, 0, 0⟩ =
      some ("20230101".toList, "20230131".toList) ∧
    processLines "20230101".toList "20230131".toList emptyScan
        (januaryBlock ++ "END:VEVENT\n".toList :: []) =
      (processLines "20230101".toList "20230131".toList
        ⟨true, "20230115T100000".toList, "20230115T113000".toList, "Team meeting".toList,
          "Room 101".toList⟩ []).map (fun r =>
        (r.1, [] ++
          ((if atoi "20230101".toList ≤ (digitsVal "20230115".toList 0 : Int) ∧
              (digitsVal "20230115".toList 0 : Int) ≤ atoi "20230131".toList then
            [{ dtstart := "20230115".toList ++ 'T' :: "100000".toList,
               dtend := "20230115".toList ++ 'T' :: "113000".toList,
               summary := "Team meeting".toList, location := "Room 101".toList }]
           else []) ++ r.2))) ∧
    processFile (januaryBlock ++ ["END:VEVENT\n".toList]) "20230101".toList "20230131".toList
        [] [] [] [] =
      some [{ dtstart := "20230115T100000".toList, dtend := "20230115T113000".toList,
              summary := "Team meeting".toList, location := "Room 101".toList }] ∧
    processFile (februaryBlock ++ ["END:VEVENT\n".toList]) "20230101".toList "20230131".toList
        [] [] [] [] = some [] ∧
    processFile ["BEGIN:VEVENT\n".toList, "DTSTART:20230115T100000Z\n".toList,
        "DTEND:20230115T113000Z\n".toList, "END:VEVENT\n".toList]
        "20230101".toList "20230131".toList [] [] [] [] = none :=
  ⟨by decide,
    (date_range_inclusion "2023/01/01".toList "2023/01/31".toList ⟨0, 0, 0⟩
      "20230101".toList "20230131".toList emptyScan
      ⟨true, "20230115T100000".toList, "20230115T113000".toList, "Team meeting".toList,
        "Room 101".toList⟩ []
      januaryBlock [] "END:VEVENT\n".toList "20230115".toList "100000".toList
      "20230115".toList "113000".toList (by decide) (by decide)
      ⟨by decide, by decide, by decide, by decide⟩ (by decide) (by decide) (by decide)
      (by decide) (by decide) (by decide) (by decide) (by decide) (by decide)).2.2.2.2.2,
    by decide, by decide, by decide⟩

end EventManager

/-! ## Theorems: header and time formatting of `A1.c` -/

namespace EventManager

open CLib

theorem toDigits_length_four (n : Nat) (h1 : 1000 ≤ n) (h2 : n ≤ 9999) :
    (Nat.toDigits 10 n).length = 4 := by
  obtain ⟨f, hf⟩ : ∃ f, n + 1 = f + 4 := ⟨n - 3, by omega⟩
  have a1 : ¬ n / 10 = 0 := by omega
  have a2 : ¬ n / 10 / 10 = 0 := by omega
  have a3 : ¬ n / 10 / 10 / 10 = 0 := by omega
  have a4 : n / 10 / 10 / 10 / 10 = 0 := by omega
  rw [Nat.toDigits, hf]
  simp only [Nat.toDigitsCore, if_neg a1, if_neg a2, if_neg a3, if_pos a4]
  rfl

theorem printInt_length_four (year : Int) (h1 : 1000 ≤ year) (h2 : year ≤ 9999) :
    (printInt year).length = 4 := by
  obtain ⟨n, rfl⟩ := Int.eq_ofNat_of_zero_le (by omega : 0 ≤ year)
  have hn : ¬ ((n : Int) < 0) := by omega
  rw [printInt, if_neg hn, Int.natAbs_ofNat]
  exact toDigits_length_four n (by omega) (by omega)

theorem printIntPadded_two_length (day : Int) (h1 : 1 ≤ day) (h2 : day ≤ 31) :
    (printIntPadded 2 day).length = 2 := by
  interval_cases day <;> rfl

theorem monthName_mem_months (month : Int) (h1 : 1 ≤ month) (h2 : month ≤ 12) :
    monthName month ∈ months := by
  interval_cases month <;> decide

/-- C13: for month in 1..12, day in 1..31 and a four-digit year, the number of dashes that
printDateHeader prints on the underline equals the number of characters of the header text
`<Month> DD, YYYY` on the line above it. -/
theorem underline_matches_header (new_line month day year : Int)
    (hm1 : 1 ≤ month) (hm2 : month ≤ 12) (hd1 : 1 ≤ day) (hd2 : day ≤ 31)
    (hy1 : 1000 ≤ year) (hy2 : year ≤ 9999) :
    monthName month ∈ months ∧
    underlineLength month = (headerLine month day year).length ∧
    List.count '-' (List.replicate (underlineLength month) '-') =
      (headerLine month day year).length ∧
    (printDateHeader new_line month day year).1 =
      (if new_line ≠ 0 then ['\n'] else []) ++ headerLine month day year ++ ['\n'] ++
        List.replicate (headerLine month day year).length '-' ++ ['\n'] := by
  have hlen : underlineLength month = (headerLine month day year).length := by
    simp only [headerLine, underlineLength, List.length_append, List.length_cons,
      List.length_nil, printIntPadded_two_length day hd1 hd2,
      printInt_length_four year hy1 hy2]
  refine ⟨monthName_mem_months month hm1 hm2, hlen, ?_, ?_⟩
  · rw [List.count_replicate_self, hlen]
  · rw [printDateHeader, hlen]

/-- Witness of C13: the header of 15 January 2023. -/
theorem underline_matches_header_witness :
    monthName 1 ∈ months ∧
    underlineLength 1 = (headerLine 1 15 2023).length ∧
    List.count '-' (List.replicate (underlineLength 1) '-') = (headerLine 1 15 2023).length ∧
    (printDateHeader 0 1 15 2023).1 =
      (if (0 : Int) ≠ 0 then ['\n'] else []) ++ headerLine 1 15 2023 ++ ['\n'] ++
        List.replicate (headerLine 1 15 2023).length '-' ++ ['\n'] :=
  underline_matches_header 0 1 15 2023 (by decide) (by decide) (by decide) (by decide)
    (by decide) (by decide)


theorem hour12_eq_emod (h : Int) (h0 : 0 ≤ h) :
    hour12 h = if h % 12 = 0 then 12 else h % 12 := by
  rw [hour12, Int.tmod_eq_emod h0 (by decide)]

/-- C14: for every hour h in 0..23 and minute m in 0..59 the hour printDateTimeRange prints
is 12 when h mod 12 = 0 and h mod 12 otherwise, always in 1..12; the minute is printed as
two digits; the suffix is AM exactly when h < 12 and PM otherwise; the map from h to
(hour, suffix) is injective on 0..23; 0:05 prints as 12:05 AM, 12:00 as 12:00 PM and 13:30
as 1:30 PM. -/
theorem twelve_hour_clock :
    (∀ h : Int, 0 ≤ h → h ≤ 23 →
      hour12 h = (if h % 12 = 0 then 12 else h % 12) ∧ 1 ≤ hour12 h ∧ hour12 h ≤ 12 ∧
      (meridiem h = "AM".toList ↔ h < 12) ∧ (meridiem h = "PM".toList ↔ 12 ≤ h)) ∧
    (∀ m : Int, 0 ≤ m → m ≤ 59 → (printIntPadded 2 m).length = 2) ∧
    (∀ h1 h2 : Int, 0 ≤ h1 → h1 ≤ 23 → 0 ≤ h2 → h2 ≤ 23 →
      hour12 h1 = hour12 h2 → meridiem h1 = meridiem h2 → h1 = h2) ∧
    (∀ (sh sm eh em : Int) (summary location : List Char),
      printDateTimeRange sh sm eh em summary location =
        printIntSpaced 2 (hour12 sh) ++ [':'] ++ printIntPadded 2 sm ++ [' '] ++
          meridiem sh ++ " to ".toList ++
          printIntSpaced 2 (hour12 eh) ++ [':'] ++ printIntPadded 2 em ++ [' '] ++
          meridiem eh ++ ": ".toList ++ summary ++ " \x7b\x7b".toList ++ location ++
          "\x7d\x7d".toList ++ ['\n']) ∧
    printDateTimeRange 0 5 12 0 "Standup".toList "Room 1".toList =
      "12:05 AM to 12:00 PM: Standup \x7b\x7bRoom 1\x7d\x7d\n".toList ∧
    printDateTimeRange 13 30 23 59 "Review".toList "Lab".toList =
      " 1:30 PM to 11:59 PM: Review \x7b\x7bLab\x7d\x7d\n".toList := by
  have hAP : "AM".toList ≠ "PM".toList := by decide
  refine ⟨fun h h0 h23 => ?_, fun m m0 m59 => ?_, fun h1 h2 a1 b1 a2 b2 e1 e2 => ?_,
    fun sh sm eh em summary location => rfl, by decide, by decide⟩
  · have he := hour12_eq_emod h h0
    refine ⟨he, ?_, ?_, ?_, ?_⟩
    · rw [he]; split_ifs <;> omega
    · rw [he]; split_ifs <;> omega
    · unfold meridiem
      split_ifs with hlt
      · exact ⟨fun _ => hlt, fun _ => rfl⟩
      · exact ⟨fun e => absurd e.symm hAP, fun e => absurd e hlt⟩
    · unfold meridiem
      split_ifs with hlt
      · exact ⟨fun e => absurd e hAP, fun e => absurd hlt (not_lt.2 e)⟩
      · exact ⟨fun _ => not_lt.1 hlt, fun _ => rfl⟩
  · interval_cases m <;> rfl
  · rw [hour12_eq_emod h1 a1, hour12_eq_emod h2 a2] at e1
    have hm : (h1 < 12 ↔ h2 < 12) := by
      unfold meridiem at e2
      split_ifs at e2 with c1 c2 c2
      · exact ⟨fun _ => c2, fun _ => c1⟩
      · exact absurd e2 hAP
      · exact absurd e2.symm hAP
      · exact ⟨fun c => absurd c c1, fun c => absurd c c2⟩
    split_ifs at e1 <;> omega

/-- Witness of C14: 13:30 is printed with hour 1 and suffix PM. -/
theorem twelve_hour_clock_witness :
    hour12 13 = (if (13 : Int) % 12 = 0 then 12 else 13 % 12) ∧ 1 ≤ hour12 13 ∧
      hour12 13 ≤ 12 ∧ (meridiem 13 = "AM".toList ↔ (13 : Int) < 12) ∧
      (meridiem 13 = "PM".toList ↔ (12 : Int) ≤ 13) :=
  twelve_hour_clock.1 13 (by decide) (by decide)

end EventManager

/-! ## Theorems: separators between date headers -/

namespace EventManager

open CLib

theorem digitChar_ne_newline (m : Nat) (h : m < 10) : Nat.digitChar m ≠ '\n' := by
  interval_cases m <;> decide

theorem toDigitsCore_no_newline (fuel n : Nat) (ds : List Char) (h : '\n' ∉ ds) :
    '\n' ∉ Nat.toDigitsCore 10 fuel n ds := by
  induction fuel generalizing n ds with
  | zero => simpa [Nat.toDigitsCore] using h
  | succ f ih =>
    have hcons : '\n' ∉ Nat.digitChar (n % 10) :: ds := by
      intro hmem
      rcases List.mem_cons.1 hmem with e | e
      · exact digitChar_ne_newline (n % 10) (Nat.mod_lt n (by decide)) e.symm
      · exact h e
    simp only [Nat.toDigitsCore]
    split_ifs
    · exact hcons
    · exact ih _ _ hcons

theorem toDigits_no_newline (n : Nat) : '\n' ∉ Nat.toDigits 10 n :=
  toDigitsCore_no_newline _ _ [] (List.not_mem_nil _)

theorem toDigits_ne_nil (n : Nat) : Nat.toDigits 10 n ≠ [] := by
  rw [Nat.toDigits]
  simp only [Nat.toDigitsCore]
  split_ifs
  · exact List.cons_ne_nil _ _
  · intro hnil
    have hmem : Nat.digitChar (n % 10) ∈ Nat.toDigitsCore 10 n (n / 10) [Nat.digitChar (n % 10)] := by
      have key : ∀ (fuel m : Nat) (ds : List Char) (c : Char), c ∈ ds →
          c ∈ Nat.toDigitsCore 10 fuel m ds := by
        intro fuel
        induction fuel with
        | zero => intro m ds c hc; simpa [Nat.toDigitsCore] using hc
        | succ f ih =>
          intro m ds c hc
          simp only [Nat.toDigitsCore]
          split_ifs
          · exact List.mem_cons_of_mem _ hc
          · exact ih _ _ c (List.mem_cons_of_mem _ hc)
      exact key _ _ _ _ (List.mem_cons_self _ _)
    rw [hnil] at hmem
    exact List.not_mem_nil _ hmem

theorem printInt_no_newline (n : Int) : '\n' ∉ printInt n := by
  unfold printInt
  split_ifs
  · intro hmem
    rcases List.mem_cons.1 hmem with e | e
    · exact absurd e (by decide)
    · exact toDigits_no_newline _ e
  · exact toDigits_no_newline _

theorem printInt_ne_nil (n : Int) : printInt n ≠ [] := by
  unfold printInt
  split_ifs
  · exact List.cons_ne_nil _ _
  · exact toDigits_ne_nil _

theorem printIntSpaced_no_newline (w : Nat) (n : Int) : '\n' ∉ printIntSpaced w n := by
  unfold printIntSpaced
  intro hmem
  rcases List.mem_append.1 hmem with e | e
  · exact absurd (List.eq_of_mem_replicate e) (by decide)
  · exact printInt_no_newline n e

theorem printIntPadded_no_newline (w : Nat) (n : Int) : '\n' ∉ printIntPadded w n := by
  unfold printIntPadded
  simp only
  split_ifs
  · intro hmem
    rcases List.mem_cons.1 hmem with e | e
    · exact absurd e (by decide)
    · rcases List.mem_append.1 e with e | e
      · exact absurd (List.eq_of_mem_replicate e) (by decide)
      · exact toDigits_no_newline _ e
  · intro hmem
    rcases List.mem_append.1 hmem with e | e
    · exact absurd (List.eq_of_mem_replicate e) (by decide)
    · exact toDigits_no_newline _ e

theorem monthName_no_newline (month : Int) : '\n' ∉ monthName month := by
  by_cases h : 1 ≤ month ∧ month ≤ 12
  · obtain ⟨h1, h2⟩ := h
    interval_cases month <;> decide
  · rw [monthName, if_neg h]
    exact List.not_mem_nil _

theorem meridiem_no_newline (hour : Int) : '\n' ∉ meridiem hour := by
  unfold meridiem
  split_ifs <;> decide

theorem headerLine_no_newline (month day year : Int) : '\n' ∉ headerLine month day year := by
  unfold headerLine
  intro hmem
  simp only [List.mem_append, List.mem_cons, List.mem_singleton, List.not_mem_nil,
    or_false] at hmem
  rcases hmem with (((e | e) | e) | e) | e
  · exact monthName_no_newline month e
  · exact absurd e (by decide)
  · exact printIntPadded_no_newline 2 day e
  · rcases e with e | e <;> exact absurd e (by decide)
  · exact printInt_no_newline year e

theorem headerLine_ne_nil (month day year : Int) : headerLine month day year ≠ [] := by
  unfold headerLine
  intro hnil
  have := congrArg List.length hnil
  simp at this

theorem rangeText_no_newline (sh sm eh em : Int) (summary location : List Char)
    (hs : '\n' ∉ summary) (hl : '\n' ∉ location) :
    '\n' ∉ rangeText sh sm eh em summary location := by
  unfold rangeText
  intro hmem
  simp only [List.mem_append, List.mem_singleton] at hmem
  have c1 : '\n' ∉ " to ".toList := by decide
  have c2 : '\n' ∉ ": ".toList := by decide
  have c3 : '\n' ∉ " \x7b\x7b".toList := by decide
  have c4 : '\n' ∉ "\x7d\x7d".toList := by decide
  have c5 : ¬ '\n' = ':' := by decide
  have c6 : ¬ '\n' = ' ' := by decide
  have d1 := printIntSpaced_no_newline 2 (hour12 sh)
  have d2 := printIntPadded_no_newline 2 sm
  have d3 := meridiem_no_newline sh
  have d4 := printIntSpaced_no_newline 2 (hour12 eh)
  have d5 := printIntPadded_no_newline 2 em
  have d6 := meridiem_no_newline eh
  tauto

theorem rangeText_ne_nil (sh sm eh em : Int) (summary location : List Char) :
    rangeText sh sm eh em summary location ≠ [] := by
  unfold rangeText
  intro hnil
  have := congrArg List.length hnil
  simp at this

theorem blankLines_line (t rest : List Char) (b : Bool) (hne : t ≠ []) (hnl : '\n' ∉ t) :
    blankLines (t ++ '\n' :: rest) b = blankLines rest true := by
  induction t generalizing b with
  | nil => exact absurd rfl hne
  | cons c t ih =>
    have hc : ¬ c = '\n' := fun e => hnl (e ▸ List.mem_cons_self _ _)
    have ht : '\n' ∉ t := fun e => hnl (List.mem_cons_of_mem _ e)
    cases t with
    | nil => simp [blankLines, hc]
    | cons c2 t2 =>
      rw [List.cons_append, blankLines, if_neg hc]
      exact ih false (List.cons_ne_nil _ _) ht

theorem replicate_dash_no_newline (n : Nat) : '\n' ∉ List.replicate n '-' :=
  fun e => absurd (List.eq_of_mem_replicate e) (by decide)

theorem underline_ne_nil (month : Int) : List.replicate (underlineLength month) '-' ≠ [] := by
  intro hnil
  have := congrArg List.length hnil
  simp [underlineLength] at this

theorem blankLines_printDateHeader (new_line month day year : Int) (rest : List Char) :
    blankLines ((printDateHeader new_line month day year).1 ++ rest) true =
      (if new_line ≠ 0 then 1 else 0) + blankLines rest true := by
  have hform : (printDateHeader new_line month day year).1 ++ rest =
      (if new_line ≠ 0 then ['\n'] else []) ++
        (headerLine month day year ++
          '\n' :: (List.replicate (underlineLength month) '-' ++ '\n' :: rest)) := by
    simp only [printDateHeader, List.append_assoc, List.singleton_append, List.cons_append,
      List.nil_append]
  have hblock : ∀ b : Bool, blankLines (headerLine month day year ++
      '\n' :: (List.replicate (underlineLength month) '-' ++ '\n' :: rest)) b =
      blankLines rest true := by
    intro b
    rw [blankLines_line _ _ b (headerLine_ne_nil month day year)
        (headerLine_no_newline month day year),
      blankLines_line _ _ true (underline_ne_nil month) (replicate_dash_no_newline _)]
  rw [hform]
  by_cases hnl : new_line ≠ 0
  · rw [if_pos hnl, if_pos hnl, List.singleton_append, blankLines, if_pos rfl, if_pos rfl,
      hblock true]
  · rw [if_neg hnl, if_neg hnl, List.nil_append, hblock true, Nat.zero_add]

theorem blankLines_range (sh sm eh em : Int) (summary location rest : List Char) (b : Bool)
    (hs : '\n' ∉ summary) (hl : '\n' ∉ location) :
    blankLines (printDateTimeRange sh sm eh em summary location ++ rest) b =
      blankLines rest true := by
  rw [printDateTimeRange, List.append_assoc, List.singleton_append]
  exact blankLines_line _ _ b (rangeText_ne_nil sh sm eh em summary location)
    (rangeText_no_newline sh sm eh em summary location hs hl)

theorem printFormattedDateTime_due (start0 end0 : DateTime) (st : PrintState) (e : Event)
    (hdue : (parseDateTime e.dtstart start0).day ≠ st.prevDay) :
    printFormattedDateTime start0 end0 st e =
      ((printDateHeader st.new_line (parseDateTime e.dtstart start0).month
          (parseDateTime e.dtstart start0).day (parseDateTime e.dtstart start0).year).1 ++
        printDateTimeRange (parseDateTime e.dtstart start0).hour
          (parseDateTime e.dtstart start0).minute (parseDateTime e.dtend end0).hour
          (parseDateTime e.dtend end0).minute e.summary e.location,
        { prevDay := (parseDateTime e.dtstart start0).day, new_line := 1 }) := by
  simp only [printFormattedDateTime, if_pos hdue, printDateHeader]

theorem printFormattedDateTime_not_due (start0 end0 : DateTime) (st : PrintState) (e : Event)
    (hdue : ¬ (parseDateTime e.dtstart start0).day ≠ st.prevDay) :
    printFormattedDateTime start0 end0 st e =
      (printDateTimeRange (parseDateTime e.dtstart start0).hour
          (parseDateTime e.dtstart start0).minute (parseDateTime e.dtend end0).hour
          (parseDateTime e.dtend end0).minute e.summary e.location, st) := by
  simp only [printFormattedDateTime, if_neg hdue]

theorem blankLines_printEvents (stack : Nat → DateTime × DateTime) (events : List Event)
    (hev : ∀ e ∈ events, '\n' ∉ e.summary ∧ '\n' ∉ e.location) (st : PrintState) (k : Nat) :
    blankLines (printEvents stack st k events).flatten true =
      if st.new_line ≠ 0 then headerCount stack st k events
      else headerCount stack st k events - 1 := by
  induction events generalizing st k with
  | nil => simp [printEvents, headerCount, blankLines]
  | cons e es ih =>
    have he := hev e (List.mem_cons_self e es)
    have hes : ∀ x ∈ es, '\n' ∉ x.summary ∧ '\n' ∉ x.location :=
      fun x hx => hev x (List.mem_cons_of_mem e hx)
    rw [printEvents, headerCount, List.flatten_cons]
    by_cases hdue : (parseDateTime e.dtstart (stack k).1).day ≠ st.prevDay
    · rw [printFormattedDateTime_due _ _ st e hdue, if_pos hdue]
      have hrest := ih hes ⟨(parseDateTime e.dtstart (stack k).1).day, 1⟩ (k + 1)
      have h1 : (⟨(parseDateTime e.dtstart (stack k).1).day, 1⟩ : PrintState).new_line ≠ 0 :=
        one_ne_zero
      rw [if_pos h1] at hrest
      rw [List.append_assoc, blankLines_printDateHeader,
        blankLines_range _ _ _ _ _ _ _ true he.1 he.2, hrest]
      dsimp only
      by_cases hnl : st.new_line ≠ 0
      · rw [if_pos hnl, if_pos hnl]
      · rw [if_neg hnl, if_neg hnl]
        omega
    · rw [printFormattedDateTime_not_due _ _ st e hdue, if_neg hdue,
        blankLines_range _ _ _ _ _ _ _ true he.1 he.2, ih hes st (k + 1), Nat.zero_add]

end EventManager

namespace EventManager

open CLib

theorem printStateAfter_new_line (stack : Nat → DateTime × DateTime) (events : List Event)
    (st : PrintState) (k : Nat) :
    (printStateAfter stack st k events).new_line =
      if headerCount stack st k events = 0 then st.new_line else 1 := by
  induction events generalizing st k with
  | nil => simp [printStateAfter, headerCount]
  | cons e es ih =>
    rw [printStateAfter, headerCount, ih]
    by_cases hdue : (parseDateTime e.dtstart (stack k).1).day ≠ st.prevDay
    · rw [printFormattedDateTime_due _ _ st e hdue, if_pos hdue]
      dsimp only
      have h1 : ¬ (1 + headerCount stack
          ⟨(parseDateTime e.dtstart (stack k).1).day, 1⟩ (k + 1) es = 0) := by omega
      rw [if_neg h1]
      split_ifs <;> rfl
    · rw [printFormattedDateTime_not_due _ _ st e hdue, if_neg hdue, Nat.zero_add]

theorem printEvents_append (stack : Nat → DateTime × DateTime) (evs more : List Event)
    (st : PrintState) (k : Nat) :
    printEvents stack st k (evs ++ more) =
      printEvents stack st k evs ++
        printEvents stack (printStateAfter stack st k evs) (k + evs.length) more := by
  induction evs generalizing st k with
  | nil => simp [printEvents, printStateAfter]
  | cons e es ih =>
    rw [List.cons_append, printEvents, printEvents, printStateAfter, ih, List.length_cons,
      show k + 1 + es.length = k + (es.length + 1) by omega]
    rfl

/-- C12: printDateHeader prints no separator when new_line is 0 (the first header) and one
newline before the header otherwise, and sets new_line to 1; so in a run from the start
state a header is preceded by a blank separator line exactly when an earlier header was
printed, and a run that prints k >= 1 headers (summaries and locations free of line breaks)
prints exactly k - 1 blank lines. -/
theorem header_separator :
    (∀ month day year : Int,
      (printDateHeader 0 month day year).1 =
        headerLine month day year ++ ['\n'] ++
          List.replicate (underlineLength month) '-' ++ ['\n']) ∧
    (∀ new_line month day year : Int, new_line ≠ 0 →
      (printDateHeader new_line month day year).1 =
        '\n' :: (printDateHeader 0 month day year).1) ∧
    (∀ new_line month day year : Int, (printDateHeader new_line month day year).2 = 1) ∧
    (∀ month day year : Int, (headerLine month day year).head? ≠ some '\n' ∧
      headerLine month day year ≠ []) ∧
    (∀ (stack : Nat → DateTime × DateTime) (evs : List Event) (e : Event),
      (parseDateTime e.dtstart (stack evs.length).1).day ≠
        (printStateAfter stack initialPrint 0 evs).prevDay →
      (printFormattedDateTime (stack evs.length).1 (stack evs.length).2
          (printStateAfter stack initialPrint 0 evs) e).1 =
        (if headerCount stack initialPrint 0 evs = 0 then [] else ['\n']) ++
          (printDateHeader 0 (parseDateTime e.dtstart (stack evs.length).1).month
            (parseDateTime e.dtstart (stack evs.length).1).day
            (parseDateTime e.dtstart (stack evs.length).1).year).1 ++
          printDateTimeRange (parseDateTime e.dtstart (stack evs.length).1).hour
            (parseDateTime e.dtstart (stack evs.length).1).minute
            (parseDateTime e.dtend (stack evs.length).2).hour
            (parseDateTime e.dtend (stack evs.length).2).minute e.summary e.location) ∧
    (∀ (stack : Nat → DateTime × DateTime) (events : List Event),
      (∀ e ∈ events, '\n' ∉ e.summary ∧ '\n' ∉ e.location) →
      1 ≤ headerCount stack initialPrint 0 events →
      blankLines (printEvents stack initialPrint 0 events).flatten true =
        headerCount stack initialPrint 0 events - 1) := by
  have hzero : ∀ month day year : Int,
      (printDateHeader 0 month day year).1 =
        headerLine month day year ++ ['\n'] ++
          List.replicate (underlineLength month) '-' ++ ['\n'] := by
    intro month day year
    simp only [printDateHeader, ne_eq, not_true_eq_false, if_false, List.nil_append]
  refine ⟨hzero, ?_, fun _ _ _ _ => rfl, ?_, ?_, ?_⟩
  · intro new_line month day year hnl
    rw [hzero]
    simp only [printDateHeader, if_pos hnl, List.singleton_append, List.cons_append,
      List.nil_append]
  · intro month day year
    refine ⟨?_, headerLine_ne_nil month day year⟩
    intro hhead
    exact headerLine_no_newline month day year (List.mem_of_mem_head? hhead)
  · intro stack evs e hdue
    rw [printFormattedDateTime_due _ _ _ e hdue, printStateAfter_new_line]
    dsimp only
    by_cases hc : headerCount stack initialPrint 0 evs = 0
    · rw [if_pos hc, if_pos hc, List.nil_append]
      rfl
    · rw [if_neg hc, if_neg hc]
      simp only [printDateHeader, if_pos (one_ne_zero : (1 : Int) ≠ 0), ne_eq,
        not_true_eq_false, if_false, List.nil_append, List.singleton_append,
        List.cons_append, List.append_assoc]
  · intro stack events hev hk
    rw [blankLines_printEvents stack events hev initialPrint 0]
    rfl

/-- Witness of C12: a run over two events on 15 and 16 January 2023 prints two headers and
one blank line. -/
theorem header_separator_witness :
    (∀ e ∈ [(⟨"20230115T100000".toList, "20230115T113000".toList, "Team meeting".toList,
          "Room 101".toList⟩ : Event),
        ⟨"20230116T090000".toList, "20230116T100000".toList, "Review".toList,
          "Room 102".toList⟩], '\n' ∉ e.summary ∧ '\n' ∉ e.location) ∧
    headerCount zeroStack initialPrint 0
      [(⟨"20230115T100000".toList, "20230115T113000".toList, "Team meeting".toList,
          "Room 101".toList⟩ : Event),
        ⟨"20230116T090000".toList, "20230116T100000".toList, "Review".toList,
          "Room 102".toList⟩] = 2 ∧
    blankLines (printEvents zeroStack initialPrint 0
      [(⟨"20230115T100000".toList, "20230115T113000".toList, "Team meeting".toList,
          "Room 101".toList⟩ : Event),
        ⟨"20230116T090000".toList, "20230116T100000".toList, "Review".toList,
          "Room 102".toList⟩]).flatten true =
      headerCount zeroStack initialPrint 0
        [(⟨"20230115T100000".toList, "20230115T113000".toList, "Team meeting".toList,
            "Room 101".toList⟩ : Event),
          ⟨"20230116T090000".toList, "20230116T100000".toList, "Review".toList,
            "Room 102".toList⟩] - 1 :=
  ⟨by decide, by decide,
    header_separator.2.2.2.2.2 zeroStack _ (by decide) (by decide)⟩

/-- C11 on the code: the file holds one event on 15 January 2023 and one on 15 February
2023, both inside the bounds.  printFormattedDateTime compares only the day of the month
with prevDay, so the second event gets no header of its own and is listed under
`January 15, 2023`; whatever the month and year, a call whose start day of the month equals
prevDay prints only its time-range line. -/
theorem day_grouping_same_day_of_month :
    main "2023/01/01".toList "2023/12/31".toList sameDayOfMonthFile ⟨0, 0, 0⟩ [] [] [] []
        zeroStack =
      some ("January 15, 2023\n".toList ++ "----------------\n".toList ++
        "10:00 AM to 11:30 AM: Team meeting \x7b\x7bRoom 101\x7d\x7d\n".toList ++
        " 9:00 AM to 10:00 AM: Review \x7b\x7bRoom 102\x7d\x7d\n".toList) ∧
    (processFile sameDayOfMonthFile "20230101".toList "20231231".toList [] [] [] []).map
      (headerCount zeroStack initialPrint 0) = some 1 ∧
    (∀ (start0 end0 : DateTime) (new_line : Int) (e : Event),
      printFormattedDateTime start0 end0
          ⟨(parseDateTime e.dtstart start0).day, new_line⟩ e =
        (printDateTimeRange (parseDateTime e.dtstart start0).hour
          (parseDateTime e.dtstart start0).minute (parseDateTime e.dtend end0).hour
          (parseDateTime e.dtend end0).minute e.summary e.location,
          ⟨(parseDateTime e.dtstart start0).day, new_line⟩)) := by
  refine ⟨by decide, by decide, fun start0 end0 new_line e => ?_⟩
  exact printFormattedDateTime_not_due start0 end0 _ e (not_not.2 rfl)

end EventManager

/-! ## Theorems: the scan of `processFile` across blocks -/

namespace EventManager

open CLib

theorem processLine_started (startDate endDate : List Char) (st : ScanState)
    (line : List Char) (r : ScanState × List Event) (hst : st.eventStarted = true)
    (h : processLine startDate endDate st line = some r) : r.1.eventStarted = true := by
  rcases processLine_cases startDate endDate st line r h with
    e | ⟨_, e⟩ | ⟨_, _, w, _, e⟩ | ⟨_, _, w, _, e⟩ | ⟨_, _, w, _, e⟩ | ⟨_, _, w, _, e⟩ <;>
    rw [e] <;> exact hst

theorem processLines_started (startDate endDate : List Char) (lines : List (List Char))
    (st : ScanState) (r : ScanState × List Event) (hst : st.eventStarted = true)
    (h : processLines startDate endDate st lines = some r) : r.1.eventStarted = true := by
  induction lines generalizing st r with
  | nil =>
    rw [processLines] at h
    injection h with h
    rw [← h]
    exact hst
  | cons l ls ih =>
    obtain ⟨r1, r2, h1, h2, e⟩ := processLines_cons_some _ _ _ _ _ _ h
    rw [e]
    exact ih r1.1 r2 (processLine_started _ _ _ _ _ hst h1) h2

/-- C15 on the code: processFile never sets eventStarted back to 0, so after the first
BEGIN:VEVENT every later line is handled as if inside a block.  A second END:VEVENT line
after a closed block prints the event again, and a LOCATION: line between two blocks
becomes the location of the next event. -/
theorem lines_outside_block_take_effect :
    processFile strayEndFile "20230101".toList "20230131".toList [] [] [] [] =
      some [⟨"20230115T100000".toList, "20230115T113000".toList, "Team meeting".toList,
          "Room 101".toList⟩,
        ⟨"20230115T100000".toList, "20230115T113000".toList, "Team meeting".toList,
          "Room 101".toList⟩] ∧
    processFile (januaryBlock ++ ["END:VEVENT\n".toList]) "20230101".toList
        "20230131".toList [] [] [] [] =
      some [⟨"20230115T100000".toList, "20230115T113000".toList, "Team meeting".toList,
          "Room 101".toList⟩] ∧
    processFile strayLocationFile "20230101".toList "20230131".toList [] [] [] [] =
      some [⟨"20230115T100000".toList, "20230115T113000".toList, "Team meeting".toList,
          "Room 101".toList⟩,
        ⟨"20230116T090000".toList, "20230116T100000".toList, "Review".toList,
          "Elsewhere".toList⟩] ∧
    (∀ (startDate endDate : List Char) (st : ScanState) (line : List Char),
      (processLine startDate endDate { st with eventStarted := true } line).map
        (fun r => r.1.eventStarted) ≠ some false) := by
  refine ⟨by decide, by decide, by decide, fun startDate endDate st line => ?_⟩
  cases hr : processLine startDate endDate { st with eventStarted := true } line with
  | none => simp
  | some r =>
    have := processLine_started startDate endDate _ line r rfl hr
    simp [this]

theorem processLine_location_kept (startDate endDate : List Char) (st : ScanState)
    (line : List Char) (r : ScanState × List Event)
    (hl : line.take 9 ≠ "LOCATION:".toList)
    (h : processLine startDate endDate st line = some r) : r.1.location = st.location := by
  rcases processLine_cases startDate endDate st line r h with
    e | ⟨_, e⟩ | ⟨_, _, w, _, e⟩ | ⟨_, _, w, _, e⟩ | ⟨_, _, w, _, e⟩ | ⟨_, c, w, _, e⟩
  · rw [e]
  · rw [e]
  · rw [e]
  · rw [e]
  · rw [e]
  · exact absurd c hl

theorem processLine_summary_kept (startDate endDate : List Char) (st : ScanState)
    (line : List Char) (r : ScanState × List Event)
    (hl : line.take 8 ≠ "SUMMARY:".toList)
    (h : processLine startDate endDate st line = some r) : r.1.summary = st.summary := by
  rcases processLine_cases startDate endDate st line r h with
    e | ⟨_, e⟩ | ⟨_, _, w, _, e⟩ | ⟨_, _, w, _, e⟩ | ⟨_, c, w, _, e⟩ | ⟨_, _, w, _, e⟩
  · rw [e]
  · rw [e]
  · rw [e]
  · rw [e]
  · exact absurd c hl
  · rw [e]

theorem processLine_dtstart_kept (startDate endDate : List Char) (st : ScanState)
    (line : List Char) (r : ScanState × List Event)
    (hl : line.take 8 ≠ "DTSTART:".toList)
    (h : processLine startDate endDate st line = some r) : r.1.dtstart = st.dtstart := by
  rcases processLine_cases startDate endDate st line r h with
    e | ⟨_, e⟩ | ⟨_, c, w, _, e⟩ | ⟨_, _, w, _, e⟩ | ⟨_, _, w, _, e⟩ | ⟨_, _, w, _, e⟩
  · rw [e]
  · rw [e]
  · exact absurd c hl
  · rw [e]
  · rw [e]
  · rw [e]

theorem processLine_dtend_kept (startDate endDate : List Char) (st : ScanState)
    (line : List Char) (r : ScanState × List Event)
    (hl : line.take 6 ≠ "DTEND:".toList)
    (h : processLine startDate endDate st line = some r) : r.1.dtend = st.dtend := by
  rcases processLine_cases startDate endDate st line r h with
    e | ⟨_, e⟩ | ⟨_, _, w, _, e⟩ | ⟨_, c, w, _, e⟩ | ⟨_, _, w, _, e⟩ | ⟨_, _, w, _, e⟩
  · rw [e]
  · rw [e]
  · rw [e]
  · exact absurd c hl
  · rw [e]
  · rw [e]

theorem processLines_location_kept (startDate endDate : List Char) (lines : List (List Char))
    (st : ScanState) (r : ScanState × List Event)
    (hl : ∀ l ∈ lines, l.take 9 ≠ "LOCATION:".toList)
    (h : processLines startDate endDate st lines = some r) : r.1.location = st.location := by
  induction lines generalizing st r with
  | nil =>
    rw [processLines] at h
    injection h with h
    rw [← h]
  | cons l ls ih =>
    obtain ⟨r1, r2, h1, h2, e⟩ := processLines_cons_some _ _ _ _ _ _ h
    rw [e]
    dsimp only
    rw [ih r1.1 r2 (fun x hx => hl x (List.mem_cons_of_mem l hx)) h2,
      processLine_location_kept _ _ _ _ _ (hl l (List.mem_cons_self l ls)) h1]

theorem processLines_summary_kept (startDate endDate : List Char) (lines : List (List Char))
    (st : ScanState) (r : ScanState × List Event)
    (hl : ∀ l ∈ lines, l.take 8 ≠ "SUMMARY:".toList)
    (h : processLines startDate endDate st lines = some r) : r.1.summary = st.summary := by
  induction lines generalizing st r with
  | nil =>
    rw [processLines] at h
    injection h with h
    rw [← h]
  | cons l ls ih =>
    obtain ⟨r1, r2, h1, h2, e⟩ := processLines_cons_some _ _ _ _ _ _ h
    rw [e]
    dsimp only
    rw [ih r1.1 r2 (fun x hx => hl x (List.mem_cons_of_mem l hx)) h2,
      processLine_summary_kept _ _ _ _ _ (hl l (List.mem_cons_self l ls)) h1]

theorem processLines_dtstart_kept (startDate endDate : List Char) (lines : List (List Char))
    (st : ScanState) (r : ScanState × List Event)
    (hl : ∀ l ∈ lines, l.take 8 ≠ "DTSTART:".toList)
    (h : processLines startDate endDate st lines = some r) : r.1.dtstart = st.dtstart := by
  induction lines generalizing st r with
  | nil =>
    rw [processLines] at h
    injection h with h
    rw [← h]
  | cons l ls ih =>
    obtain ⟨r1, r2, h1, h2, e⟩ := processLines_cons_some _ _ _ _ _ _ h
    rw [e]
    dsimp only
    rw [ih r1.1 r2 (fun x hx => hl x (List.mem_cons_of_mem l hx)) h2,
      processLine_dtstart_kept _ _ _ _ _ (hl l (List.mem_cons_self l ls)) h1]

theorem processLines_dtend_kept (startDate endDate : List Char) (lines : List (List Char))
    (st : ScanState) (r : ScanState × List Event)
    (hl : ∀ l ∈ lines, l.take 6 ≠ "DTEND:".toList)
    (h : processLines startDate endDate st lines = some r) : r.1.dtend = st.dtend := by
  induction lines generalizing st r with
  | nil =>
    rw [processLines] at h
    injection h with h
    rw [← h]
  | cons l ls ih =>
    obtain ⟨r1, r2, h1, h2, e⟩ := processLines_cons_some _ _ _ _ _ _ h
    rw [e]
    dsimp only
    rw [ih r1.1 r2 (fun x hx => hl x (List.mem_cons_of_mem l hx)) h2,
      processLine_dtend_kept _ _ _ _ _ (hl l (List.mem_cons_self l ls)) h1]

theorem eq_append_of_take (line pre : List Char) (n : Nat) (h : line.take n = pre) :
    line = pre ++ line.drop n := by
  rw [← h, List.take_append_drop]

theorem processLine_location_stored (startDate endDate : List Char) (st : ScanState)
    (line v : List Char) (hst : st.eventStarted = true)
    (h : line.take 9 = "LOCATION:".toList)
    (hv : scanToNewline 100 (line.drop 9) = Scanned.stored v) :
    processLine startDate endDate st line = some ({ st with location := v }, []) := by
  have hline := eq_append_of_take line _ 9 h
  have n1 : ¬ line.take 10 = "END:VEVENT".toList := by rw [hline]; simp
  have n2 : ¬ line.take 8 = "DTSTART:".toList := by rw [hline]; simp
  have n3 : ¬ line.take 6 = "DTEND:".toList := by rw [hline]; simp
  have n4 : ¬ line.take 8 = "SUMMARY:".toList := by rw [hline]; simp
  unfold processLine
  rw [hst, if_neg (by simp), if_neg n1, if_neg n2, if_neg n3, if_neg n4, if_pos h, hv]

theorem processLine_summary_stored (startDate endDate : List Char) (st : ScanState)
    (line v : List Char) (hst : st.eventStarted = true)
    (h : line.take 8 = "SUMMARY:".toList)
    (hv : scanToNewline 100 (line.drop 8) = Scanned.stored v) :
    processLine startDate endDate st line = some ({ st with summary := v }, []) := by
  have hline := eq_append_of_take line _ 8 h
  have n1 : ¬ line.take 10 = "END:VEVENT".toList := by rw [hline]; simp
  have n2 : ¬ line.take 8 = "DTSTART:".toList := by rw [hline]; simp
  have n3 : ¬ line.take 6 = "DTEND:".toList := by rw [hline]; simp
  unfold processLine
  rw [hst, if_neg (by simp), if_neg n1, if_neg n2, if_neg n3, if_pos h, hv]

theorem processLine_dtstart_stored (startDate endDate : List Char) (st : ScanState)
    (line v : List Char) (hst : st.eventStarted = true)
    (h : line.take 8 = "DTSTART:".toList)
    (hv : scanWord 16 (line.drop 8) = Scanned.stored v) :
    processLine startDate endDate st line = some ({ st with dtstart := v }, []) := by
  have hline := eq_append_of_take line _ 8 h
  have n1 : ¬ line.take 10 = "END:VEVENT".toList := by rw [hline]; simp
  unfold processLine
  rw [hst, if_neg (by simp), if_neg n1, if_pos h, hv]

theorem processLine_dtend_stored (startDate endDate : List Char) (st : ScanState)
    (line v : List Char) (hst : st.eventStarted = true)
    (h : line.take 6 = "DTEND:".toList)
    (hv : scanWord 16 (line.drop 6) = Scanned.stored v) :
    processLine startDate endDate st line = some ({ st with dtend := v }, []) := by
  have hline := eq_append_of_take line _ 6 h
  have n1 : ¬ line.take 10 = "END:VEVENT".toList := by rw [hline]; simp
  have n2 : ¬ line.take 8 = "DTSTART:".toList := by rw [hline]; simp
  unfold processLine
  rw [hst, if_neg (by simp), if_neg n1, if_neg n2, if_pos h, hv]

/-- C16: processFile never clears the four stored fields.  In a run that stays within the
buffers (lines as fgets returns them, at most 255 characters; no value written past
dtstart[16], dtend[16], summary[100], location[100]), once a block has begun,
after a LOCATION: (SUMMARY:, DTSTART:, DTEND:) line that stores the value v and any further
lines none of which is of that kind, the event printed at an END:VEVENT line carries v: an
event block without such a line uses the value stored by the most recent earlier line of
that kind.  The END:VEVENT line itself leaves all fields as they are. -/
theorem field_carry_over (startDate endDate : List Char) (st st1 : ScanState)
    (printed : List Event) (line v : List Char) (mid : List (List Char))
    (endLine : List Char)
    (hfgets : ∀ l ∈ line :: mid ++ [endLine], l.length < 256)
    (hfit : buffersFit st) (hst : st.eventStarted = true)
    (hend : endLine.take 10 = "END:VEVENT".toList)
    (hrun : processLines startDate endDate st (line :: mid) = some (st1, printed)) :
    (line.take 9 = "LOCATION:".toList →
      scanToNewline 100 (line.drop 9) = Scanned.stored v →
      (∀ l ∈ mid, l.take 9 ≠ "LOCATION:".toList) →
      v.length < 100 ∧ ∀ r, processLine startDate endDate st1 endLine = some r →
        ∀ e ∈ r.2, e.location = v) ∧
    (line.take 8 = "SUMMARY:".toList →
      scanToNewline 100 (line.drop 8) = Scanned.stored v →
      (∀ l ∈ mid, l.take 8 ≠ "SUMMARY:".toList) →
      v.length < 100 ∧ ∀ r, processLine startDate endDate st1 endLine = some r →
        ∀ e ∈ r.2, e.summary = v) ∧
    (line.take 8 = "DTSTART:".toList →
      scanWord 16 (line.drop 8) = Scanned.stored v →
      (∀ l ∈ mid, l.take 8 ≠ "DTSTART:".toList) →
      v.length < 16 ∧ ∀ r, processLine startDate endDate st1 endLine = some r →
        ∀ e ∈ r.2, e.dtstart = v) ∧
    (line.take 6 = "DTEND:".toList →
      scanWord 16 (line.drop 6) = Scanned.stored v →
      (∀ l ∈ mid, l.take 6 ≠ "DTEND:".toList) →
      v.length < 16 ∧ ∀ r, processLine startDate endDate st1 endLine = some r →
        ∀ e ∈ r.2, e.dtend = v) ∧
    buffersFit st1 ∧
    processLine startDate endDate st1 endLine =
      some (st1, if atoi startDate ≤ atoi st1.dtstart ∧ atoi st1.dtend ≤ atoi endDate then
        [{ dtstart := st1.dtstart, dtend := st1.dtend, summary := st1.summary,
           location := st1.location }] else []) := by
  have hstarted : st1.eventStarted = true :=
    processLines_started startDate endDate (line :: mid) st _ hst hrun
  have hstep := processLine_end_vevent startDate endDate st1 endLine hstarted hend
  obtain ⟨r1, r2, h1, h2, e⟩ := processLines_cons_some _ _ _ _ _ _ hrun
  have hst1 : st1 = r2.1 := congrArg Prod.fst e
  have hmem : ∀ r, processLine startDate endDate st1 endLine = some r → ∀ ev ∈ r.2,
      ev = ⟨st1.dtstart, st1.dtend, st1.summary, st1.location⟩ := by
    intro r hr ev hev
    rw [hstep] at hr
    injection hr with hr
    rw [← hr] at hev
    dsimp only at hev
    split_ifs at hev
    · exact List.mem_singleton.1 hev
    · exact absurd hev (List.not_mem_nil ev)
  refine ⟨fun h hv hmid => ⟨scanToNewline_stored_length _ _ _ hv, fun r hr ev hev => ?_⟩,
    fun h hv hmid => ⟨scanToNewline_stored_length _ _ _ hv, fun r hr ev hev => ?_⟩,
    fun h hv hmid => ⟨scanWord_stored_length _ _ _ hv, fun r hr ev hev => ?_⟩,
    fun h hv hmid => ⟨scanWord_stored_length _ _ _ hv, fun r hr ev hev => ?_⟩,
    processLines_buffersFit _ _ _ _ _ hfit hrun, hstep⟩
  · rw [hmem r hr ev hev]
    dsimp only
    rw [hst1, processLines_location_kept _ _ mid _ _ hmid h2]
    rw [processLine_location_stored _ _ st line v hst h hv] at h1
    injection h1 with h1
    rw [← h1]
  · rw [hmem r hr ev hev]
    dsimp only
    rw [hst1, processLines_summary_kept _ _ mid _ _ hmid h2]
    rw [processLine_summary_stored _ _ st line v hst h hv] at h1
    injection h1 with h1
    rw [← h1]
  · rw [hmem r hr ev hev]
    dsimp only
    rw [hst1, processLines_dtstart_kept _ _ mid _ _ hmid h2]
    rw [processLine_dtstart_stored _ _ st line v hst h hv] at h1
    injection h1 with h1
    rw [← h1]
  · rw [hmem r hr ev hev]
    dsimp only
    rw [hst1, processLines_dtend_kept _ _ mid _ _ hmid h2]
    rw [processLine_dtend_stored _ _ st line v hst h hv] at h1
    injection h1 with h1
    rw [← h1]

/-- Witness of C16: the block after `LOCATION:Room 101` has no LOCATION: line and its event
is printed with location `Room 101`; a SUMMARY: line of 150 characters does not fit
summary[100] and a DTSTART: value of 16 characters does not fit dtstart[16]. -/
theorem field_carry_over_witness :
    processLines "20230101".toList "20230131".toList
        { emptyScan with eventStarted := true }
        ("LOCATION:Room 101\n".toList ::
          ["END:VEVENT\n".toList, "BEGIN:VEVENT\n".toList,
            "DTSTART:20230116T090000\n".toList, "DTEND:20230116T100000\n".toList,
            "SUMMARY:Review\n".toList]) =
      some (⟨true, "20230116T090000".toList, "20230116T100000".toList, "Review".toList,
        "Room 101".toList⟩, []) ∧
    processLine "20230101".toList "20230131".toList
        ⟨true, "20230116T090000".toList, "20230116T100000".toList, "Review".toList,
          "Room 101".toList⟩ "END:VEVENT\n".toList =
      some (⟨true, "20230116T090000".toList, "20230116T100000".toList, "Review".toList,
          "Room 101".toList⟩,
        [⟨"20230116T090000".toList, "20230116T100000".toList, "Review".toList,
          "Room 101".toList⟩]) ∧
    ("Room 101".toList.length < 100 ∧
      ∀ r, processLine "20230101".toList "20230131".toList
          ⟨true, "20230116T090000".toList, "20230116T100000".toList, "Review".toList,
            "Room 101".toList⟩ "END:VEVENT\n".toList = some r →
        ∀ e ∈ r.2, e.location = "Room 101".toList) ∧
    processLine "20230101".toList "20230131".toList { emptyScan with eventStarted := true }
        ("SUMMARY:".toList ++ List.replicate 150 'x' ++ ['\n']) = none ∧
    processLine "20230101".toList "20230131".toList { emptyScan with eventStarted := true }
        "DTSTART:20230116T090000Z\n".toList = none :=
  ⟨by decide, by decide,
    (field_carry_over "20230101".toList "20230131".toList
      { emptyScan with eventStarted := true }
      ⟨true, "20230116T090000".toList, "20230116T100000".toList, "Review".toList,
        "Room 101".toList⟩ [] "LOCATION:Room 101\n".toList "Room 101".toList
      ["END:VEVENT\n".toList, "BEGIN:VEVENT\n".toList,
        "DTSTART:20230116T090000\n".toList, "DTEND:20230116T100000\n".toList,
        "SUMMARY:Review\n".toList] "END:VEVENT\n".toList (by decide)
      ⟨by decide, by decide, by decide, by decide⟩ (by decide) (by decide) (by decide)).1
      (by decide) (by decide) (by decide),
    by set_option maxRecDepth 8000 in decide, by decide⟩

end EventManager

/-! ## Theorems: empty fields in `parseLine` -/

namespace MusicManager

open CLib

theorem fieldsAux_ne_nil (d : Char) (s cur : List Char) : fieldsAux d s cur ≠ [] := by
  induction s generalizing cur with
  | nil => simp [fieldsAux]
  | cons c cs ih =>
    rw [fieldsAux]
    split_ifs
    · exact List.cons_ne_nil _ _
    · exact ih _

theorem joinFields_cons (f : List Char) (fs : List (List Char)) (h : fs ≠ []) :
    joinFields (f :: fs) = f ++ ',' :: joinFields fs := by
  cases fs with
  | nil => exact absurd rfl h
  | cons g gs => rfl

theorem joinFields_fieldsAux (s cur : List Char) :
    joinFields (fieldsAux ',' s cur) = cur ++ s := by
  induction s generalizing cur with
  | nil => simp [fieldsAux, joinFields]
  | cons c cs ih =>
    rw [fieldsAux]
    split_ifs with hc
    · rw [joinFields_cons _ _ (fieldsAux_ne_nil ',' cs []), ih, hc, List.nil_append]
    · rw [ih, List.append_assoc, List.singleton_append]

theorem fieldsAux_no_delimiter (d : Char) (s cur : List Char) (hcur : d ∉ cur) :
    ∀ f ∈ fieldsAux d s cur, d ∉ f := by
  induction s generalizing cur with
  | nil =>
    intro f hf
    rw [fieldsAux, List.mem_singleton] at hf
    rw [hf]
    exact hcur
  | cons c cs ih =>
    intro f hf
    rw [fieldsAux] at hf
    split_ifs at hf with hc
    · rcases List.mem_cons.1 hf with e | e
      · rw [e]; exact hcur
      · exact ih [] (List.not_mem_nil d) f e
    · refine ih (cur ++ [c]) ?_ f hf
      intro hmem
      rcases List.mem_append.1 hmem with e | e
      · exact hcur e
      · exact hc (List.mem_singleton.1 e).symm

theorem strtokAux_append_field (d : Char) (f rest cur : List Char) (hf : d ∉ f) :
    strtokAux d (f ++ rest) cur = strtokAux d rest (cur ++ f) := by
  induction f generalizing cur with
  | nil => simp
  | cons c cs ih =>
    have hc : ¬ c = d := fun e => hf (e ▸ List.mem_cons_self _ _)
    rw [List.cons_append, strtokAux, if_neg hc,
      ih (cur ++ [c]) (fun e => hf (List.mem_cons_of_mem c e)), List.append_assoc,
      List.singleton_append]

theorem strtokAux_joinFields (fs : List (List Char)) (hne : ∀ f ∈ fs, f ≠ [])
    (hd : ∀ f ∈ fs, ',' ∉ f) : strtokAux ',' (joinFields fs) [] = fs := by
  induction fs with
  | nil => simp [joinFields, strtokAux]
  | cons f fs ih =>
    have hf : f ≠ [] := hne f (List.mem_cons_self f fs)
    have hfd : ',' ∉ f := hd f (List.mem_cons_self f fs)
    cases fs with
    | nil =>
      have h := strtokAux_append_field ',' f [] [] hfd
      rw [List.append_nil, List.nil_append] at h
      rw [joinFields, h, strtokAux, if_neg hf]
    | cons g gs =>
      rw [joinFields_cons _ _ (List.cons_ne_nil g gs), strtokAux_append_field ',' f _ [] hfd,
        List.nil_append, strtokAux, if_pos rfl, if_neg hf,
        ih (fun x hx => hne x (List.mem_cons_of_mem f hx))
          (fun x hx => hd x (List.mem_cons_of_mem f hx))]

theorem strtokAll_dropEmptyFields (line : List Char) :
    strtokAll ',' (dropEmptyFields line) = strtokAll ',' line := by
  rw [strtokAll_eq_filter_commaFields line, dropEmptyFields, strtokAll]
  apply strtokAux_joinFields
  · intro f hf
    simpa using (List.mem_filter.1 hf).2
  · intro f hf
    exact fieldsAux_no_delimiter ',' line [] (List.not_mem_nil _) f (List.mem_filter.1 hf).1

theorem parseLoop_of_8 {R : Type} (atof : List Char → R) (options : Options)
    (tokens : List (List Char)) (v : Locals R) (hlen : 8 ≤ tokens.length) :
    parseLoop atof options tokens 0 v =
      { artist := tokens.getD 0 [], song := tokens.getD 1 [], year := atoi (tokens.getD 4 []),
        sorting :=
          if options.sortBy = "energy".toList then atof (tokens.getD 7 [])
          else if options.sortBy = "danceability".toList then atof (tokens.getD 6 [])
          else if options.sortBy = "popularity".toList then atof (tokens.getD 5 [])
          else v.sorting } := by
  match tokens, hlen with
  | t0 :: t1 :: t2 :: t3 :: t4 :: t5 :: t6 :: t7 :: rest, _ =>
    have hpd : "popularity".toList ≠ "danceability".toList := by decide
    have hpe : "popularity".toList ≠ "energy".toList := by decide
    have hde : "danceability".toList ≠ "energy".toList := by decide
    simp only [parseLoop, parseField, List.getD_cons_succ, List.getD_cons_zero]
    rw [parseLoop_from_8 atof options rest 8 _ (le_refl 8)]
    by_cases he : options.sortBy = "energy".toList
    · have hd : ¬ options.sortBy = "danceability".toList := by rw [he]; exact hde.symm
      have hp : ¬ options.sortBy = "popularity".toList := by rw [he]; exact hpe.symm
      simp only [if_pos he, if_neg hd, if_neg hp]
    · by_cases hd : options.sortBy = "danceability".toList
      · have hp : ¬ options.sortBy = "popularity".toList := by rw [hd]; exact hpd.symm
        simp only [if_pos hd, if_neg he, if_neg hp]
      · by_cases hp : options.sortBy = "popularity".toList
        · simp only [if_pos hp, if_neg he, if_neg hd]
        · simp only [if_neg hp, if_neg he, if_neg hd]

theorem tokens_shift_one (line : List Char) (pre post : List (List Char))
    (h : commaFields line = pre ++ [] :: post) (hpre : ∀ f ∈ pre, f ≠ [])
    (hpost : ∀ f ∈ post.take (8 - pre.length), f ≠ [])
    (hlen : 8 ≤ pre.length + post.length) :
    8 ≤ (strtokAll ',' line).length ∧
    ∀ j, pre.length ≤ j → j < 8 →
      (strtokAll ',' line).getD j [] = (commaFields line).getD (j + 1) [] := by
  have hf1 : pre.filter (fun f => decide (f ≠ [])) = pre :=
    List.filter_eq_self.2 (fun a ha => by simpa using hpre a ha)
  have hf2 : (post.take (8 - pre.length)).filter (fun f => decide (f ≠ [])) =
      post.take (8 - pre.length) :=
    List.filter_eq_self.2 (fun a ha => by simpa using hpost a ha)
  have hf3 : post.filter (fun f => decide (f ≠ [])) =
      post.take (8 - pre.length) ++
        (post.drop (8 - pre.length)).filter (fun f => decide (f ≠ [])) := by
    conv_lhs => rw [← List.take_append_drop (8 - pre.length) post]
    rw [List.filter_append, hf2]
  have htok : strtokAll ',' line =
      pre ++ (post.take (8 - pre.length) ++
        (post.drop (8 - pre.length)).filter (fun f => decide (f ≠ []))) := by
    rw [strtokAll_eq_filter_commaFields, h, List.filter_append, hf1]
    have hnil : List.filter (fun f => decide (f ≠ [])) (([] : List Char) :: post) =
        List.filter (fun f => decide (f ≠ [])) post := by
      rw [List.filter_cons_of_neg]
      simp
    rw [hnil, hf3]
  have htake : (post.take (8 - pre.length)).length = 8 - pre.length := by
    rw [List.length_take]
    omega
  refine ⟨?_, fun j hj1 hj2 => ?_⟩
  · rw [htok, List.length_append, List.length_append, htake]
    omega
  · rw [htok, h, List.getD_append_right _ _ _ _ hj1,
      List.getD_append_right _ _ _ _ (by omega : pre.length ≤ j + 1),
      show j + 1 - pre.length = (j - pre.length) + 1 by omega, List.getD_cons_succ,
      List.getD_append _ _ _ _ (by rw [htake]; omega),
      List.getD_eq_getElem?_getD, List.getD_eq_getElem?_getD, List.getElem?_take,
      if_pos (by omega)]

/-- C17, as the claim states it, fails: the row `A,B,c,d,2000,,0.5,0.6,0.7` has an empty
field at position 5, before position 7; with sortBy=energy parseLine takes the rank from
field 8 but the year from field 4, not from field 5, one position later. -/
theorem empty_field_shift_counterexample :
    commaFields "A,B,c,d,2000,,0.5,0.6,0.7\n".toList =
      [['A'], ['B'], ['c'], ['d'], "2000".toList, [], "0.5".toList, "0.6".toList,
        "0.7\n".toList] ∧
    (parseLine atofDecimal ⟨"energy".toList, 1⟩ "A,B,c,d,2000,,0.5,0.6,0.7\n".toList
        ⟨[], [], 0, 0⟩).year = 2000 ∧
    atoi ((commaFields "A,B,c,d,2000,,0.5,0.6,0.7\n".toList).getD 4 []) = 2000 ∧
    atoi ((commaFields "A,B,c,d,2000,,0.5,0.6,0.7\n".toList).getD 5 []) = 0 ∧
    (parseLine atofDecimal ⟨"energy".toList, 1⟩ "A,B,c,d,2000,,0.5,0.6,0.7\n".toList
        ⟨[], [], 0, 0⟩).year ≠
      atoi ((commaFields "A,B,c,d,2000,,0.5,0.6,0.7\n".toList).getD 5 []) := by
  have htok : strtokAll ',' "A,B,c,d,2000,,0.5,0.6,0.7\n".toList =
      ['A'] :: ['B'] :: ['c'] :: ['d'] :: "2000".toList :: "0.5".toList :: "0.6".toList ::
        "0.7\n".toList :: [] := by decide
  have hyear : (parseLine atofDecimal ⟨"energy".toList, 1⟩
      "A,B,c,d,2000,,0.5,0.6,0.7\n".toList ⟨[], [], 0, 0⟩).year = 2000 := by
    rw [parseLine_of_8_tokens atofDecimal _ _ _ _ _ _ _ _ _ _ _ _ htok]
    decide
  have h5 : atoi ((commaFields "A,B,c,d,2000,,0.5,0.6,0.7\n".toList).getD 5 []) = 0 := by
    decide
  refine ⟨by decide, hyear, by decide, h5, ?_⟩
  rw [hyear, h5]
  decide

/-- C17 (amended): parseLine numbers the non-empty comma-separated tokens only: its result
on a line equals its result on the same line with every empty field removed; a row whose
only empty field among the first nine lies at position 4 or before takes year and rank from
the fields one position later (year from field 5, rank from field 6, 7 or 8). -/
theorem empty_fields_not_counted {R : Type} (atof : List Char → R) (display : Int)
    (line : List Char) (v : Locals R) :
    joinFields (commaFields line) = line ∧
    (∀ options : Options,
      parseLine atof options (dropEmptyFields line) v = parseLine atof options line v) ∧
    (∀ pre post : List (List Char), commaFields line = pre ++ [] :: post →
      (∀ f ∈ pre, f ≠ []) → pre.length ≤ 4 →
      (∀ f ∈ post.take (8 - pre.length), f ≠ []) → 8 ≤ pre.length + post.length →
      (parseLine atof ⟨"energy".toList, display⟩ line v).year =
          atoi ((commaFields line).getD 5 []) ∧
        (parseLine atof ⟨"popularity".toList, display⟩ line v).sorting =
          atof ((commaFields line).getD 6 []) ∧
        (parseLine atof ⟨"danceability".toList, display⟩ line v).sorting =
          atof ((commaFields line).getD 7 []) ∧
        (parseLine atof ⟨"energy".toList, display⟩ line v).sorting =
          atof ((commaFields line).getD 8 [])) := by
  refine ⟨joinFields_fieldsAux line [], fun options => ?_, ?_⟩
  · rw [parseLine, parseLine, strtokAll_dropEmptyFields]
  · intro pre post h hpre hp4 hpost hlen
    obtain ⟨h8, hshift⟩ := tokens_shift_one line pre post h hpre hpost hlen
    have hpd : "popularity".toList ≠ "danceability".toList := by decide
    have hpe : "popularity".toList ≠ "energy".toList := by decide
    have hde : "danceability".toList ≠ "energy".toList := by decide
    refine ⟨?_, ?_, ?_, ?_⟩
    · rw [parseLine, parseLoop_of_8 atof _ _ v h8, hshift 4 hp4 (by decide)]
    · rw [parseLine, parseLoop_of_8 atof _ _ v h8, hshift 5 (by omega) (by decide)]
      simp only [if_neg hpe, if_neg hpd, if_true]
    · rw [parseLine, parseLoop_of_8 atof _ _ v h8, hshift 6 (by omega) (by decide)]
      simp only [if_neg hde, if_true]
    · rw [parseLine, parseLoop_of_8 atof _ _ v h8, hshift 7 (by omega) (by decide)]
      simp only [if_true]

/-- Witness of the amended C17: `Adele,Hello,233,False,,2015,0.8,0.5,0.9` has its only
empty field at position 4; year and energy rank come from fields 5 and 8. -/
theorem empty_fields_not_counted_witness :
    (parseLine atofDecimal ⟨"energy".toList, 2⟩
        "Adele,Hello,233,False,,2015,0.8,0.5,0.9\n".toList ⟨[], [], 0, 0⟩).year =
      atoi ((commaFields "Adele,Hello,233,False,,2015,0.8,0.5,0.9\n".toList).getD 5 []) ∧
    (parseLine atofDecimal ⟨"energy".toList, 2⟩
        "Adele,Hello,233,False,,2015,0.8,0.5,0.9\n".toList ⟨[], [], 0, 0⟩).sorting =
      atofDecimal
        ((commaFields "Adele,Hello,233,False,,2015,0.8,0.5,0.9\n".toList).getD 8 []) :=
  ⟨((empty_fields_not_counted atofDecimal 2
      "Adele,Hello,233,False,,2015,0.8,0.5,0.9\n".toList ⟨[], [], 0, 0⟩).2.2
      ["Adele".toList, "Hello".toList, "233".toList, "False".toList]
      ["2015".toList, "0.8".toList, "0.5".toList, "0.9\n".toList]
      (by decide) (by decide) (by decide) (by decide) (by decide)).1,
    ((empty_fields_not_counted atofDecimal 2
      "Adele,Hello,233,False,,2015,0.8,0.5,0.9\n".toList ⟨[], [], 0, 0⟩).2.2
      ["Adele".toList, "Hello".toList, "233".toList, "False".toList]
      ["2015".toList, "0.8".toList, "0.5".toList, "0.9\n".toList]
      (by decide) (by decide) (by decide) (by decide) (by decide)).2.2.2⟩

end MusicManager

namespace EventManager

open CLib

theorem processLines_before_first_begin (startDate endDate : List Char)
    (lines : List (List Char)) (st : ScanState) (hst : st.eventStarted = false)
    (h : ∀ l ∈ lines, l.take 12 ≠ "BEGIN:VEVENT".toList) :
    processLines startDate endDate st lines = some (st, []) := by
  induction lines with
  | nil => rfl
  | cons l ls ih =>
    have hl : processLine startDate endDate st l = some (st, []) := by
      unfold processLine
      rw [hst, if_pos (by simp), if_neg (h l (List.mem_cons_self l ls))]
    rw [processLines, hl]
    dsimp only
    rw [ih (fun x hx => h x (List.mem_cons_of_mem l hx))]
    rfl

end EventManager
